import Mathlib

/-!
Verification of the paginated hierarchical replication engine of the
metadata-retrieval repository: the GitHub downloader (`github/downloader.go`),
the transient in-memory store backend (`store.Mem`), and the downstream
GitHub-to-Bitbucket bridge (`migrate`).

The embedding threads an explicit storer state together with a trace of the
observable calls the engine makes (storer calls and page fetches).  Pagination
loops (Go `for hasNextPage` loops) are embedded with an explicit fuel
parameter; running out of fuel while `hasNextPage` is still true yields a
distinguished error, and every theorem about a terminating walk carries a
hypothesis that the page chain ends within the supplied fuel.

The `graphql` entity structures are not part of the provided sources; they are
modelled from the spec (section 3 and section 6) and from every field access
the provided sources perform on them: connections are a node list plus
`{hasNextPage, endCursor}` page info, and entities carry exactly the fields
the downloader, the Mem store and the bridge read.
-/

set_option maxHeartbeats 1000000

deriving instance DecidableEq for Except

namespace MetadataRetrieval

/-- Modelled from the spec: page info of one fetched page of a connection,
`{hasNextPage, endCursor}` (spec section 6, Cursor Page Source). -/
structure PageInfo where
  hasNextPage : Bool
  endCursor : String
  deriving DecidableEq, Repr

/-- Modelled from the spec: a connection page: an ordered node list plus page
info.  The Go source has one named connection struct per relation; all of them
have exactly this shape, so the embedding uses one generic structure. -/
structure Conn (α : Type) where
  nodes : List α
  pageInfo : PageInfo
  deriving DecidableEq, Repr

/-- Modelled from the spec: a user node; the downloader reads `.Login`. -/
structure User where
  login : String
  deriving DecidableEq, Repr

/-- Modelled from the spec: a label node; the downloader reads `.Name`. -/
structure Label where
  name : String
  deriving DecidableEq, Repr

/-- Modelled from the spec: a repository topic node; the downloader reads
`.Topic.Name`, flattened here to one field. -/
structure Topic where
  name : String
  deriving DecidableEq, Repr

/-- Modelled from the spec: an issue or pull-request comment
(`graphql.IssueComment`); the Mem store reads author login, creation time and
body, and the bridge keys its result map by `.Id`. -/
structure IssueComment where
  id : String
  authorLogin : String
  createdAt : String
  body : String
  deriving DecidableEq, Repr

/-- Modelled from the spec: a pull-request review comment. -/
structure PullRequestReviewComment where
  id : String
  authorLogin : String
  createdAt : String
  body : String
  deriving DecidableEq, Repr

/-- Modelled from the spec: a pull-request review with its embedded first page
of comments; the downloader reads `.Id` (node id, used as fetch key),
`.DatabaseId` (used as the store key) and `.Comments`. -/
structure PullRequestReview where
  id : String
  databaseId : Int
  authorLogin : String
  submittedAt : String
  body : String
  comments : Conn PullRequestReviewComment
  deriving DecidableEq, Repr

/-- Modelled from the spec: an issue with its embedded first pages of
assignees, labels and comments. -/
structure Issue where
  id : String
  number : Int
  title : String
  assignees : Conn User
  labels : Conn Label
  comments : Conn IssueComment
  deriving DecidableEq, Repr

/-- Modelled from the spec: a pull request with its embedded first pages; the
bridge additionally reads `.State`, `.Title`, `.Body`, `.HeadRef.Name` and
`.BaseRef.Name` (refs flattened to name strings here). -/
structure PullRequest where
  id : String
  number : Int
  title : String
  body : String
  state : String
  headRefName : String
  baseRefName : String
  assignees : Conn User
  labels : Conn Label
  comments : Conn IssueComment
  reviews : Conn PullRequestReview
  deriving DecidableEq, Repr

/-- Modelled from the spec: owner of a repository; the Mem store reads
`.Owner.Login`. -/
structure RepositoryOwner where
  login : String
  deriving DecidableEq, Repr

/-- Modelled from the spec: the scalar repository fields saved by
`SaveRepository`; the Mem store keys by `.Owner.Login` and `.Name`. -/
structure RepositoryFields where
  owner : RepositoryOwner
  name : String
  nameWithOwner : String
  deriving DecidableEq, Repr

/-- Modelled from the spec: the root repository query result with its embedded
first pages of topics, issues and pull requests. -/
structure Repository where
  repositoryFields : RepositoryFields
  id : String
  repositoryTopics : Conn Topic
  issues : Conn Issue
  pullRequests : Conn PullRequest
  deriving DecidableEq, Repr

/-- Modelled from the spec: an organization member (`graphql.UserExtended`). -/
structure UserExtended where
  login : String
  deriving DecidableEq, Repr

/-- Modelled from the spec: the root organization query result with its
embedded first page of members. -/
structure Organization where
  login : String
  membersWithRole : Conn UserExtended
  deriving DecidableEq, Repr

/-- Which connection a page fetch belongs to; one constructor per distinct
query issued by `downloader.go`. -/
inductive FetchKind where
  | rootRepository
  | rootOrganization
  | topics
  | issues
  | issueAssignees
  | issueLabels
  | issueComments
  | pullRequests
  | prAssignees
  | prLabels
  | prComments
  | prReviews
  | prReviewComments
  | membersWithRole
  deriving DecidableEq, Repr

/-- Errors of the embedding.  `notFound` is the `store.NotFound` sentinel;
`wrap` mirrors the `fmt.Errorf` context wrapping the Go code applies when it
propagates an error; `fuelOut` is the embedding artifact for a pagination
loop that did not finish within its fuel. -/
inductive Err where
  | notFound
  | fetchFail (kind : FetchKind) (id cursor : String)
  | saveFail (msg : String)
  | wrap (msg : String) (inner : Err)
  | fuelOut
  deriving DecidableEq, Repr

/-- One observable call the engine makes: a storer call or a page fetch.
Save events carry the arguments the corresponding `storer` method receives
(entity ids rather than whole entities where the entity payload is not needed
to state any claim; the pull-request save carries the full assignee and label
lists because the spec constrains them). -/
inductive Ev where
  | version (v : Int)
  | beginTx
  | commit
  | rollback
  | fetch (kind : FetchKind) (id : String) (cursor : String)
  | saveOrganization (login : String)
  | saveUser (login : String)
  | saveRepository (owner name : String) (topics : List String)
  | saveIssue (owner name : String) (number : Int) (assignees labels : List String)
  | saveIssueComment (owner name : String) (issueNumber : Int) (commentId : String)
  | savePullRequest (owner name : String) (number : Int) (assignees labels : List String)
  | savePullRequestComment (owner name : String) (prNumber : Int) (commentId : String)
  | savePullRequestReview (owner name : String) (prNumber : Int) (reviewDatabaseId : Int)
  | savePullRequestReviewComment (owner name : String) (prNumber : Int)
      (reviewDatabaseId : Int) (commentId : String)
  deriving DecidableEq, Repr

/-- State threaded through a traversal: the storer backend state plus the
trace of calls issued so far. -/
structure DlState (σ : Type) where
  store : σ
  trace : List Ev
  deriving DecidableEq, Repr

/-- The traversal monad: state passing that keeps the trace (and the backend
state) even when an error aborts the computation, mirroring that in Go the
calls already issued have happened regardless of the later error. -/
def DlM (σ : Type) (α : Type) : Type := DlState σ → Except Err α × DlState σ

namespace DlM

def pure' (a : α) : DlM σ α := fun s => (Except.ok a, s)

def bind' (m : DlM σ α) (f : α → DlM σ β) : DlM σ β := fun s =>
  match m s with
  | (Except.ok a, s') => f a s'
  | (Except.error e, s') => (Except.error e, s')

instance : Monad (DlM σ) where
  pure := pure'
  bind := bind'

end DlM

/-- Throw an error without touching the state. -/
def throwE (e : Err) : DlM σ α := fun s => (Except.error e, s)

/-- Wrap the error of an `Except` result, mirroring an `fmt.Errorf` site. -/
def wrapE (msg : String) : Except Err α → Except Err α
  | Except.ok a => Except.ok a
  | Except.error e => Except.error (Err.wrap msg e)

/-- Record a page fetch and return the oracle result (a `client.Query` call in
the Go code). -/
def doFetch (k : FetchKind) (id cursor : String) (r : Except Err α) : DlM σ α :=
  fun s => (r, { s with trace := s.trace ++ [Ev.fetch k id cursor] })

/-- Record a storer call event and apply the backend transition; the backend
error (if any) aborts the computation, with the event already recorded. -/
def callStore (e : Ev) (f : σ → Except Err σ) : DlM σ Unit := fun s =>
  match f s.store with
  | Except.ok st => (Except.ok (), { store := st, trace := s.trace ++ [e] })
  | Except.error err => (Except.error err, { s with trace := s.trace ++ [e] })

/-- The `storer` capability interface of `downloader.go` (lines 27 to 44),
over an abstract backend state `σ`: every method is a state transition that
may fail.  `version` cannot fail in the Go interface (it returns nothing). -/
structure Storer (σ : Type) where
  saveOrganization : Organization → σ → Except Err σ
  saveUser : UserExtended → σ → Except Err σ
  saveRepository : RepositoryFields → List String → σ → Except Err σ
  saveIssue : String → String → Issue → List String → List String → σ → Except Err σ
  saveIssueComment : String → String → Int → IssueComment → σ → Except Err σ
  savePullRequest : String → String → PullRequest → List String → List String → σ → Except Err σ
  savePullRequestComment : String → String → Int → IssueComment → σ → Except Err σ
  savePullRequestReview : String → String → Int → PullRequestReview → σ → Except Err σ
  savePullRequestReviewComment : String → String → Int → Int → PullRequestReviewComment →
    σ → Except Err σ
  beginTx : σ → Except Err σ
  commit : σ → Except Err σ
  rollback : σ → Except Err σ
  version : Int → σ → σ
  setActiveVersion : Int → σ → Except Err σ
  cleanup : Int → σ → Except Err σ

/-- The Cursor Page Source collaborator: one fetch function per paginated
query the downloader issues, keyed by the parent node id (or login for the
root queries) and the continuation cursor. -/
structure Fetcher where
  rootRepository : String → String → Except Err Repository
  rootOrganization : String → Except Err Organization
  topics : String → String → Except Err (Conn Topic)
  issues : String → String → Except Err (Conn Issue)
  issueAssignees : String → String → Except Err (Conn User)
  issueLabels : String → String → Except Err (Conn Label)
  issueComments : String → String → Except Err (Conn IssueComment)
  pullRequests : String → String → Except Err (Conn PullRequest)
  prAssignees : String → String → Except Err (Conn User)
  prLabels : String → String → Except Err (Conn Label)
  prComments : String → String → Except Err (Conn IssueComment)
  prReviews : String → String → Except Err (Conn PullRequestReview)
  prReviewComments : String → String → Except Err (Conn PullRequestReviewComment)
  membersWithRole : String → String → Except Err (Conn UserExtended)

/-- The string-accumulating pagination loop of `downloader.go`: the repeated
`for hasNextPage` block that fetches a page and appends one string per node
(topics, issue and pull-request assignees and labels).  The fuel argument is
the embedding bound on the number of iterations. -/
def stringsLoop (k : FetchKind) (fetch : String → String → Except Err (Conn α))
    (item : α → String) (id msg : String) :
    Nat → Bool → String → List String → DlM σ (List String)
  | _, false, _, acc => pure acc
  | 0, true, _, _ => throwE Err.fuelOut
  | Nat.succ fuel, true, cursor, acc => do
    let page ← doFetch k id cursor (wrapE msg (fetch id cursor))
    stringsLoop k fetch item id msg fuel page.pageInfo.hasNextPage page.pageInfo.endCursor
      (acc ++ page.nodes.map item)

/-- The per-node body loop (`for _, x := range page.Nodes`). -/
def forEachM (f : α → DlM σ Unit) : List α → DlM σ Unit
  | [] => pure ()
  | a :: rest => do
    f a
    forEachM f rest

/-- The node-processing pagination loop of `downloader.go`: the repeated
`for hasNextPage` block that fetches a page and runs a per-node action
(save or process) on each node in page order. -/
def nodesLoop (k : FetchKind) (fetch : String → String → Except Err (Conn α))
    (onNode : α → DlM σ Unit) (id msg : String) :
    Nat → Bool → String → DlM σ Unit
  | _, false, _ => pure ()
  | 0, true, _ => throwE Err.fuelOut
  | Nat.succ fuel, true, cursor => do
    let page ← doFetch k id cursor (wrapE msg (fetch id cursor))
    forEachM onNode page.nodes
    nodesLoop k fetch onNode id msg fuel page.pageInfo.hasNextPage page.pageInfo.endCursor

/-- `downloadTopics` (downloader.go lines 194 to 239): collect the first-page
topic names, then drain the topics connection. -/
def downloadTopics (F : Fetcher) (fuel : Nat) (repository : Repository) :
    DlM σ (List String) :=
  stringsLoop FetchKind.topics F.topics Topic.name repository.id
    "RepositoryTopics query failed" fuel
    repository.repositoryTopics.pageInfo.hasNextPage
    repository.repositoryTopics.pageInfo.endCursor
    (repository.repositoryTopics.nodes.map Topic.name)

/-- `downloadIssueAssignees` (lines 317 to 362). -/
def downloadIssueAssignees (F : Fetcher) (fuel : Nat) (issue : Issue) :
    DlM σ (List String) :=
  stringsLoop FetchKind.issueAssignees F.issueAssignees User.login issue.id
    "failed to query issue assignees" fuel
    issue.assignees.pageInfo.hasNextPage issue.assignees.pageInfo.endCursor
    (issue.assignees.nodes.map User.login)

/-- `downloadIssueLabels` (lines 364 to 409). -/
def downloadIssueLabels (F : Fetcher) (fuel : Nat) (issue : Issue) :
    DlM σ (List String) :=
  stringsLoop FetchKind.issueLabels F.issueLabels Label.name issue.id
    "failed to query issue labels" fuel
    issue.labels.pageInfo.hasNextPage issue.labels.pageInfo.endCursor
    (issue.labels.nodes.map Label.name)

/-- `downloadPullRequestAssignees` (lines 551 to 596). -/
def downloadPullRequestAssignees (F : Fetcher) (fuel : Nat) (pr : PullRequest) :
    DlM σ (List String) :=
  stringsLoop FetchKind.prAssignees F.prAssignees User.login pr.id
    "failed to query PR assignees" fuel
    pr.assignees.pageInfo.hasNextPage pr.assignees.pageInfo.endCursor
    (pr.assignees.nodes.map User.login)

/-- `downloadPullRequestLabels` (lines 598 to 643). -/
def downloadPullRequestLabels (F : Fetcher) (fuel : Nat) (pr : PullRequest) :
    DlM σ (List String) :=
  stringsLoop FetchKind.prLabels F.prLabels Label.name pr.id
    "failed to query PR labels" fuel
    pr.labels.pageInfo.hasNextPage pr.labels.pageInfo.endCursor
    (pr.labels.nodes.map Label.name)

/-- Error wrapping applied by the downloader around a nested step when it
propagates the error through an `fmt.Errorf` site. -/
def wrapNode (msg : String) (m : DlM σ Unit) : DlM σ Unit := fun s =>
  match m s with
  | (Except.ok a, s') => (Except.ok a, s')
  | (Except.error e, s') => (Except.error (Err.wrap msg e), s')

/-- The save of one issue comment (`d.storer.SaveIssueComment`). -/
def saveIssueCommentCall (S : Storer σ) (owner name : String) (number : Int)
    (c : IssueComment) : DlM σ Unit :=
  callStore (Ev.saveIssueComment owner name number c.id)
    (S.saveIssueComment owner name number c)

/-- `downloadIssueComments` (lines 411 to 460): save the embedded first page
of comments (errors returned unwrapped, as in the source), then drain the
comments connection saving each node (errors wrapped, as in the source). -/
def downloadIssueComments (S : Storer σ) (F : Fetcher) (fuel : Nat)
    (owner name : String) (issue : Issue) : DlM σ Unit := do
  forEachM (saveIssueCommentCall S owner name issue.number) issue.comments.nodes
  nodesLoop FetchKind.issueComments F.issueComments
    (fun c => wrapNode "failed to save issue comments"
      (saveIssueCommentCall S owner name issue.number c))
    issue.id "failed to query issue comments" fuel
    issue.comments.pageInfo.hasNextPage issue.comments.pageInfo.endCursor

/-- The per-issue `process` closure of `downloadIssues` (lines 242 to 258):
fully resolve assignees and labels, save the issue, then its comments. -/
def processIssue (S : Storer σ) (F : Fetcher) (fuel : Nat)
    (owner name : String) (issue : Issue) : DlM σ Unit := do
  let assignees ← downloadIssueAssignees F fuel issue
  let labels ← downloadIssueLabels F fuel issue
  callStore (Ev.saveIssue owner name issue.number assignees labels)
    (S.saveIssue owner name issue assignees labels)
  downloadIssueComments S F fuel owner name issue

/-- `downloadIssues` (lines 241 to 315): process the embedded first page of
issues, then drain the issues connection processing each issue. -/
def downloadIssues (S : Storer σ) (F : Fetcher) (fuel : Nat)
    (owner name : String) (repository : Repository) : DlM σ Unit := do
  forEachM (fun issue => wrapNode "failed to process issue" (processIssue S F fuel owner name issue))
    repository.issues.nodes
  nodesLoop FetchKind.issues F.issues
    (fun issue => wrapNode "failed to process issue" (processIssue S F fuel owner name issue))
    repository.id "failed to query issues" fuel
    repository.issues.pageInfo.hasNextPage repository.issues.pageInfo.endCursor

/-- The save of one pull-request comment (`d.storer.SavePullRequestComment`);
`downloadPullRequestComments` wraps its error on both the first page and the
fetched pages. -/
def savePullRequestCommentCall (S : Storer σ) (owner name : String) (number : Int)
    (c : IssueComment) : DlM σ Unit :=
  wrapNode "failed to save PR comments"
    (callStore (Ev.savePullRequestComment owner name number c.id)
      (S.savePullRequestComment owner name number c))

/-- `downloadPullRequestComments` (lines 645 to 694). -/
def downloadPullRequestComments (S : Storer σ) (F : Fetcher) (fuel : Nat)
    (owner name : String) (pr : PullRequest) : DlM σ Unit := do
  forEachM (savePullRequestCommentCall S owner name pr.number) pr.comments.nodes
  nodesLoop FetchKind.prComments F.prComments
    (savePullRequestCommentCall S owner name pr.number)
    pr.id "failed to query PR comments" fuel
    pr.comments.pageInfo.hasNextPage pr.comments.pageInfo.endCursor

/-- The per-comment `process` closure of `downloadReviewComments`
(lines 759 to 768). -/
def saveReviewCommentCall (S : Storer σ) (owner name : String)
    (prNumber : Int) (review : PullRequestReview)
    (c : PullRequestReviewComment) : DlM σ Unit :=
  wrapNode "failed to save PullRequestReviewComment"
    (callStore (Ev.savePullRequestReviewComment owner name prNumber review.databaseId c.id)
      (S.savePullRequestReviewComment owner name prNumber review.databaseId c))

/-- `downloadReviewComments` (lines 758 to 819): save the embedded first page
of review comments, then drain the review-comments connection. -/
def downloadReviewComments (S : Storer σ) (F : Fetcher) (fuel : Nat)
    (owner name : String) (prNumber : Int) (review : PullRequestReview) :
    DlM σ Unit := do
  forEachM (saveReviewCommentCall S owner name prNumber review) review.comments.nodes
  nodesLoop FetchKind.prReviewComments F.prReviewComments
    (saveReviewCommentCall S owner name prNumber review)
    review.id "failed to query PR review comments" fuel
    review.comments.pageInfo.hasNextPage review.comments.pageInfo.endCursor

/-- The per-review `process` closure of `downloadPullRequestReviews`
(lines 697 to 703): save the review, then immediately drain its comments. -/
def processReview (S : Storer σ) (F : Fetcher) (fuel : Nat)
    (owner name : String) (prNumber : Int) (review : PullRequestReview) :
    DlM σ Unit := do
  wrapNode "failed to save PR review"
    (callStore (Ev.savePullRequestReview owner name prNumber review.databaseId)
      (S.savePullRequestReview owner name prNumber review))
  downloadReviewComments S F fuel owner name prNumber review

/-- `downloadPullRequestReviews` (lines 696 to 756). -/
def downloadPullRequestReviews (S : Storer σ) (F : Fetcher) (fuel : Nat)
    (owner name : String) (pr : PullRequest) : DlM σ Unit := do
  forEachM (processReview S F fuel owner name pr.number) pr.reviews.nodes
  nodesLoop FetchKind.prReviews F.prReviews
    (processReview S F fuel owner name pr.number)
    pr.id "failed to query PR reviews" fuel
    pr.reviews.pageInfo.hasNextPage pr.reviews.pageInfo.endCursor

/-- The per-pull-request `process` closure of `downloadPullRequests`
(lines 463 to 488): fully resolve assignees and labels, save the pull
request, then its comments, then its reviews. -/
def processPullRequest (S : Storer σ) (F : Fetcher) (fuel : Nat)
    (owner name : String) (pr : PullRequest) : DlM σ Unit := do
  let assignees ← downloadPullRequestAssignees F fuel pr
  let labels ← downloadPullRequestLabels F fuel pr
  callStore (Ev.savePullRequest owner name pr.number assignees labels)
    (S.savePullRequest owner name pr assignees labels)
  downloadPullRequestComments S F fuel owner name pr
  downloadPullRequestReviews S F fuel owner name pr

/-- `downloadPullRequests` (lines 462 to 549). -/
def downloadPullRequests (S : Storer σ) (F : Fetcher) (fuel : Nat)
    (owner name : String) (repository : Repository) : DlM σ Unit := do
  forEachM (fun pr => wrapNode "failed to process PR" (processPullRequest S F fuel owner name pr))
    repository.pullRequests.nodes
  nodesLoop FetchKind.pullRequests F.pullRequests
    (fun pr => wrapNode "failed to process PR" (processPullRequest S F fuel owner name pr))
    repository.id "failed to query PRs" fuel
    repository.pullRequests.pageInfo.hasNextPage
    repository.pullRequests.pageInfo.endCursor

/-- The commit half of the deferred transaction epilogue: the commit event is
recorded and the commit error, if any, is discarded, exactly as the Go
`defer` discards the result of `d.storer.Commit()`. -/
def commitState (S : Storer σ) (s : DlState σ) : DlState σ :=
  { store := match S.commit s.store with
      | Except.ok st => st
      | Except.error _ => s.store,
    trace := s.trace ++ [Ev.commit] }

/-- The rollback half of the deferred transaction epilogue; the rollback
error, if any, is discarded, as in the Go `defer`. -/
def rollbackState (S : Storer σ) (s : DlState σ) : DlState σ :=
  { store := match S.rollback s.store with
      | Except.ok st => st
      | Except.error _ => s.store,
    trace := s.trace ++ [Ev.rollback] }

/-- The transaction wrapper shared by `DownloadRepository` and
`DownloadOrganization`: call `Begin` (an error there is returned before the
`defer` is installed, so neither commit nor rollback runs), run the body,
then commit on success and roll back on failure. -/
def withTx (S : Storer σ) (body : DlM σ Unit) : DlM σ Unit := fun s =>
  match S.beginTx s.store with
  | Except.error e =>
    (Except.error (Err.wrap "could not call Begin()" e),
      { s with trace := s.trace ++ [Ev.beginTx] })
  | Except.ok st =>
    match body { store := st, trace := s.trace ++ [Ev.beginTx] } with
    | (Except.ok _, s2) => (Except.ok (), commitState S s2)
    | (Except.error e, s2) => (Except.error e, rollbackState S s2)

/-- The body of `DownloadRepository` between `Begin` and the deferred
epilogue (lines 116 to 175): root query, topics, repository save, issues,
pull requests. -/
def repositoryBody (S : Storer σ) (F : Fetcher) (fuel : Nat)
    (owner name : String) : DlM σ Unit := do
  let repo ← doFetch FetchKind.rootRepository (owner ++ "/" ++ name) ""
    (wrapE "first query failed" (F.rootRepository owner name))
  let topics ← downloadTopics F fuel repo
  callStore
    (Ev.saveRepository repo.repositoryFields.owner.login repo.repositoryFields.name topics)
    (fun st => wrapE "failed to save repository" (S.saveRepository repo.repositoryFields topics st))
  downloadIssues S F fuel owner name repo
  downloadPullRequests S F fuel owner name repo

/-- `DownloadRepository` (lines 98 to 176): set the version, begin a
transaction, run the traversal body, commit or roll back. -/
def downloadRepository (S : Storer σ) (F : Fetcher) (fuel : Nat)
    (owner name : String) (version : Int) : DlM σ Unit := fun s =>
  withTx S (repositoryBody S F fuel owner name)
    { store := S.version version s.store, trace := s.trace ++ [Ev.version version] }

/-- The per-user `process` closure of `downloadUsers` (lines 876 to 883). -/
def saveUserCall (S : Storer σ) (user : UserExtended) : DlM σ Unit :=
  wrapNode "failed to save UserExtended"
    (callStore (Ev.saveUser user.login) (S.saveUser user))

/-- `downloadUsers` (lines 875 to 931). -/
def downloadUsers (S : Storer σ) (F : Fetcher) (fuel : Nat)
    (name : String) (organization : Organization) : DlM σ Unit := do
  forEachM (fun u => wrapNode "failed to process user" (saveUserCall S u))
    organization.membersWithRole.nodes
  nodesLoop FetchKind.membersWithRole F.membersWithRole
    (fun u => wrapNode "failed to process user" (saveUserCall S u))
    name "failed to query organization members" fuel
    organization.membersWithRole.pageInfo.hasNextPage
    organization.membersWithRole.pageInfo.endCursor

/-- The body of `DownloadOrganization` between `Begin` and the deferred
epilogue (lines 841 to 872). -/
def organizationBody (S : Storer σ) (F : Fetcher) (fuel : Nat)
    (name : String) : DlM σ Unit := do
  let org ← doFetch FetchKind.rootOrganization name ""
    (wrapE "organization query failed" (F.rootOrganization name))
  callStore (Ev.saveOrganization org.login)
    (fun st => wrapE "failed to save organization" (S.saveOrganization org st))
  downloadUsers S F fuel name org

/-- `DownloadOrganization` (lines 823 to 873). -/
def downloadOrganization (S : Storer σ) (F : Fetcher) (fuel : Nat)
    (name : String) (version : Int) : DlM σ Unit := fun s =>
  withTx S (organizationBody S F fuel name)
    { store := S.version version s.store, trace := s.trace ++ [Ev.version version] }

/-- A Go map, embedded as an association list with at most one binding per
key (every insertion replaces an existing binding).  Reading an absent key
yields `none`; the Go zero-value read through a nil map corresponds to the
`Option` chain staying `none`. -/
abbrev GoMap (κ ν : Type) : Type := List (κ × ν)

/-- Go map read `m[k]` (the second result of the comma-ok form). -/
def gmFind [DecidableEq κ] : GoMap κ ν → κ → Option ν
  | [], _ => none
  | (k', v) :: rest, k => if k = k' then some v else gmFind rest k

/-- Go map write `m[k] = v`. -/
def gmInsert [DecidableEq κ] : GoMap κ ν → κ → ν → GoMap κ ν
  | [], k, v => [(k, v)]
  | (k', v') :: rest, k, v =>
    if k = k' then (k, v) :: rest else (k', v') :: gmInsert rest k v

namespace Store

/-- `store.PullRequestReview`: one review entry of the Mem backend. -/
structure PullRequestReview where
  review : MetadataRetrieval.PullRequestReview
  comments : List PullRequestReviewComment
  deriving DecidableEq, Repr

/-- `store.PullRequest`: one pull-request entry of the Mem backend. -/
structure PullRequest where
  pr : MetadataRetrieval.PullRequest
  assignees : List String
  labels : List String
  comments : List IssueComment
  reviews : GoMap Int PullRequestReview
  deriving DecidableEq, Repr

/-- `store.Repo`: one repository entry of the Mem backend. -/
structure Repo where
  repositoryFields : RepositoryFields
  topics : List String
  prs : GoMap Int PullRequest
  deriving DecidableEq, Repr

/-- `store.Mem`: the transient in-memory backend state, the shared
`owner -> name -> Repo` mapping.  The mutex is dropped: the Orchestrator
calls the store strictly sequentially (spec section 5), so the embedding is
the sequential semantics of the methods. -/
structure Mem where
  repos : GoMap String (GoMap String Repo)
  deriving DecidableEq, Repr

/-- `Mem.SaveRepository` (store source lines 48 to 64): create the owner
submap if absent, then overwrite the repository entry with the given fields
and topics and a fresh empty pull-request map.  The `fmt.Printf` trace output
is elided.  Never fails. -/
def memSaveRepository (fields : RepositoryFields) (topics : List String)
    (m : Mem) : Except Err Mem :=
  let sub := (gmFind m.repos fields.owner.login).getD []
  let entry : Repo := { repositoryFields := fields, topics := topics, prs := [] }
  Except.ok { repos := gmInsert m.repos fields.owner.login (gmInsert sub fields.name entry) }

/-- `Mem.SaveIssue` (lines 66 to 69): print only, the mapping is untouched. -/
def memSaveIssue (_repositoryOwner _repositoryName : String) (_issue : Issue)
    (_assignees _labels : List String) (m : Mem) : Except Err Mem :=
  Except.ok m

/-- `Mem.SaveIssueComment` (lines 71 to 74): print only, the mapping is
untouched. -/
def memSaveIssueComment (_repositoryOwner _repositoryName : String)
    (_issueNumber : Int) (_comment : IssueComment) (m : Mem) : Except Err Mem :=
  Except.ok m

/-- `Mem.SavePullRequest` (lines 76 to 94): `NotFound` when the repository
entry for the given owner and name is absent (reading through a possibly
absent owner submap, as the Go zero-value read does); otherwise record the
pull request under its number with the given assignees and labels, no
comments (the Go literal omits `Comments`) and a fresh empty review map. -/
def memSavePullRequest (repositoryOwner repositoryName : String)
    (pr : MetadataRetrieval.PullRequest) (assignees labels : List String)
    (m : Mem) : Except Err Mem :=
  let sub := (gmFind m.repos repositoryOwner).getD []
  match gmFind sub repositoryName with
  | none => Except.error Err.notFound
  | some repo =>
    let entry : PullRequest :=
      { pr := pr, assignees := assignees, labels := labels, comments := [], reviews := [] }
    let repo' : Repo := { repo with prs := gmInsert repo.prs pr.number entry }
    Except.ok { repos := gmInsert m.repos repositoryOwner (gmInsert sub repositoryName repo') }

/-- `Mem.SavePullRequestComment` (lines 96 to 110): `NotFound` when the
pull-request entry is absent at any level of the nesting; otherwise append
the comment to the pull-request entry. -/
def memSavePullRequestComment (repositoryOwner repositoryName : String)
    (pullRequestNumber : Int) (comment : IssueComment) (m : Mem) : Except Err Mem :=
  let sub := (gmFind m.repos repositoryOwner).getD []
  match gmFind sub repositoryName with
  | none => Except.error Err.notFound
  | some repo =>
    match gmFind repo.prs pullRequestNumber with
    | none => Except.error Err.notFound
    | some prEntry =>
      let prEntry' : PullRequest := { prEntry with comments := prEntry.comments ++ [comment] }
      let repo' : Repo := { repo with prs := gmInsert repo.prs pullRequestNumber prEntry' }
      Except.ok { repos := gmInsert m.repos repositoryOwner (gmInsert sub repositoryName repo') }

/-- `Mem.SavePullRequestReview` (lines 112 to 127): `NotFound` when the
pull-request entry is absent; otherwise record the review under its
`DatabaseId` with no comments. -/
def memSavePullRequestReview (repositoryOwner repositoryName : String)
    (pullRequestNumber : Int) (review : MetadataRetrieval.PullRequestReview)
    (m : Mem) : Except Err Mem :=
  let sub := (gmFind m.repos repositoryOwner).getD []
  match gmFind sub repositoryName with
  | none => Except.error Err.notFound
  | some repo =>
    match gmFind repo.prs pullRequestNumber with
    | none => Except.error Err.notFound
    | some prEntry =>
      let reviewEntry : PullRequestReview := { review := review, comments := [] }
      let prEntry' : PullRequest :=
        { prEntry with reviews := gmInsert prEntry.reviews review.databaseId reviewEntry }
      let repo' : Repo := { repo with prs := gmInsert repo.prs pullRequestNumber prEntry' }
      Except.ok { repos := gmInsert m.repos repositoryOwner (gmInsert sub repositoryName repo') }

/-- `Mem.SavePullRequestReviewComment` (lines 129 to 144): `NotFound` when
the review entry is absent at any level of the nesting; otherwise append the
comment to the review entry. -/
def memSavePullRequestReviewComment (repositoryOwner repositoryName : String)
    (pullRequestNumber pullRequestReviewId : Int)
    (comment : PullRequestReviewComment) (m : Mem) : Except Err Mem :=
  let sub := (gmFind m.repos repositoryOwner).getD []
  match gmFind sub repositoryName with
  | none => Except.error Err.notFound
  | some repo =>
    match gmFind repo.prs pullRequestNumber with
    | none => Except.error Err.notFound
    | some prEntry =>
      match gmFind prEntry.reviews pullRequestReviewId with
      | none => Except.error Err.notFound
      | some reviewEntry =>
        let reviewEntry' : PullRequestReview :=
          { reviewEntry with comments := reviewEntry.comments ++ [comment] }
        let prEntry' : PullRequest :=
          { prEntry with reviews := gmInsert prEntry.reviews pullRequestReviewId reviewEntry' }
        let repo' : Repo := { repo with prs := gmInsert repo.prs pullRequestNumber prEntry' }
        Except.ok { repos := gmInsert m.repos repositoryOwner (gmInsert sub repositoryName repo') }

end Store

/-- The `store.Mem` backend packaged as a `Storer`: `SaveOrganization`,
`SaveUser`, `SaveIssue` and `SaveIssueComment` only print (state unchanged,
always `ok`), and `Begin`, `Commit`, `Rollback`, `Version`,
`SetActiveVersion` and `Cleanup` are all no-ops (store source lines 146
to 167). -/
def memStorer : Storer Store.Mem where
  saveOrganization := fun _ m => Except.ok m
  saveUser := fun _ m => Except.ok m
  saveRepository := Store.memSaveRepository
  saveIssue := Store.memSaveIssue
  saveIssueComment := Store.memSaveIssueComment
  savePullRequest := Store.memSavePullRequest
  savePullRequestComment := Store.memSavePullRequestComment
  savePullRequestReview := Store.memSavePullRequestReview
  savePullRequestReviewComment := Store.memSavePullRequestReviewComment
  beginTx := fun m => Except.ok m
  commit := fun m => Except.ok m
  rollback := fun m => Except.ok m
  version := fun _ m => m
  setActiveVersion := fun _ m => Except.ok m
  cleanup := fun _ m => Except.ok m

namespace Bridge

/-- What one Bitbucket comment write carries; the `trim(fmt.Sprintf ...)` text
rendering of the bridge is elided and the event carries the source entity
instead, since no claim inspects the rendered text. -/
inductive BitPayload where
  | topComment (c : IssueComment)
  | reviewHeader (r : MetadataRetrieval.PullRequestReview)
  | nestedComment (c : PullRequestReviewComment)
  deriving DecidableEq, Repr

/-- One write the bridge issues to the Bitbucket server: create a pull
request or create a pull-request comment (with an optional parent comment
id).  `respId` is the id the server answered with; the server is modelled as
always succeeding and assigning sequential ids, which the bridge threads into
the `Parent` field of nested review comments. -/
inductive BitEv where
  | createPR (prId : Int) (pr : MetadataRetrieval.PullRequest) (respId : Nat)
  | createComment (prId : Int) (payload : BitPayload) (parent : Option Nat) (respId : Nat)
  deriving DecidableEq, Repr

/-- `createComments` (bridge source lines 125 to 144): one top-level comment
write per stored comment, in slice order; returns the comment-id to
response-id map the Go code builds (which its caller discards). -/
def createComments (prId : Int) :
    List IssueComment → Nat → Nat × List BitEv × List (String × Nat)
  | [], ctr => (ctr, [], [])
  | c :: rest, ctr =>
    let (ctr', evs, mp) := createComments prId rest (ctr + 1)
    (ctr', BitEv.createComment prId (BitPayload.topComment c) none ctr :: evs,
      (c.id, ctr) :: mp)

/-- The inner loop of `createReviewComments` (lines 105 to 119): one nested
comment write per review comment, each attached to the parent id the server
answered for the review header comment. -/
def createNested (prId : Int) (parent : Nat) :
    List PullRequestReviewComment → Nat → Nat × List BitEv
  | [], ctr => (ctr, [])
  | c :: rest, ctr =>
    let (ctr', evs) := createNested prId parent rest (ctr + 1)
    (ctr', BitEv.createComment prId (BitPayload.nestedComment c) (some parent) ctr :: evs)

/-- `createReviewComments` (lines 91 to 123): for each stored review, write
one header comment rendering the review, then its nested comments as
children of that header. -/
def createReviewComments (prId : Int) :
    GoMap Int Store.PullRequestReview → Nat → Nat × List BitEv
  | [], ctr => (ctr, [])
  | (_, rv) :: rest, ctr =>
    let (ctr1, nested) := createNested prId ctr rv.comments (ctr + 1)
    let (ctr2, evs) := createReviewComments prId rest ctr1
    (ctr2, BitEv.createComment prId (BitPayload.reviewHeader rv.review) none ctr
      :: (nested ++ evs))

/-- `migratePR` (lines 76 to 89): create the pull request, then its top-level
comments, then its review threads. -/
def migratePR (prId : Int) (p : Store.PullRequest) (ctr : Nat) : Nat × List BitEv :=
  let (ctr1, cevs, _) := createComments prId p.comments (ctr + 1)
  let (ctr2, revs) := createReviewComments prId p.reviews ctr1
  (ctr2, BitEv.createPR prId p.pr ctr :: (cevs ++ revs))

/-- The pull-request loop of `migrate` (lines 64 to 72): every pull request
whose state is not "OPEN" is skipped with `continue`. -/
def migrateList : GoMap Int Store.PullRequest → Nat → Nat × List BitEv
  | [], ctr => (ctr, [])
  | (k, p) :: rest, ctr =>
    if p.pr.state = "OPEN" then
      let (ctr1, evs) := migratePR k p ctr
      let (ctr2, evs') := migrateList rest ctr1
      (ctr2, evs ++ evs')
    else migrateList rest ctr

/-- `migrate` (lines 57 to 74) on an already obtained repository snapshot.
Go map iteration order is unspecified; the embedding iterates the map in its
association-list order (the claims about the bridge are per pull request and
hold for any order).  The per-pull-request error logging is invisible here
because the modelled server always succeeds. -/
def migrate (repo : Store.Repo) (ctr : Nat) : Nat × List BitEv :=
  migrateList repo.prs ctr

end Bridge

namespace Store

/-- The repository entry visible at `Repos[owner][name]`, reading through a
possibly absent owner submap as the Go zero-value read does. -/
def Mem.repoAt (m : Mem) (owner name : String) : Option Repo :=
  gmFind ((gmFind m.repos owner).getD []) name

/-- The pull-request entry visible at `Repos[owner][name].PRs[number]`. -/
def Mem.prAt (m : Mem) (owner name : String) (number : Int) : Option PullRequest :=
  match m.repoAt owner name with
  | none => none
  | some r => gmFind r.prs number

/-- The review entry visible at
`Repos[owner][name].PRs[number].Reviews[reviewId]`. -/
def Mem.reviewAt (m : Mem) (owner name : String) (number reviewId : Int) :
    Option PullRequestReview :=
  match m.prAt owner name number with
  | none => none
  | some p => gmFind p.reviews reviewId

end Store

/-- A first page whose `hasNextPage` is false: the connection is complete. -/
def lastPI : PageInfo := { hasNextPage := false, endCursor := "" }

/-- A fetcher every query of which fails; concrete scenarios override the
queries they actually use, so a run hitting one of these would abort. -/
def failF : Fetcher where
  rootRepository := fun _ _ => Except.error (Err.fetchFail FetchKind.rootRepository "" "")
  rootOrganization := fun _ => Except.error (Err.fetchFail FetchKind.rootOrganization "" "")
  topics := fun id c => Except.error (Err.fetchFail FetchKind.topics id c)
  issues := fun id c => Except.error (Err.fetchFail FetchKind.issues id c)
  issueAssignees := fun id c => Except.error (Err.fetchFail FetchKind.issueAssignees id c)
  issueLabels := fun id c => Except.error (Err.fetchFail FetchKind.issueLabels id c)
  issueComments := fun id c => Except.error (Err.fetchFail FetchKind.issueComments id c)
  pullRequests := fun id c => Except.error (Err.fetchFail FetchKind.pullRequests id c)
  prAssignees := fun id c => Except.error (Err.fetchFail FetchKind.prAssignees id c)
  prLabels := fun id c => Except.error (Err.fetchFail FetchKind.prLabels id c)
  prComments := fun id c => Except.error (Err.fetchFail FetchKind.prComments id c)
  prReviews := fun id c => Except.error (Err.fetchFail FetchKind.prReviews id c)
  prReviewComments := fun id c => Except.error (Err.fetchFail FetchKind.prReviewComments id c)
  membersWithRole := fun id c => Except.error (Err.fetchFail FetchKind.membersWithRole id c)

/-- A pull request with no assignees, labels, comments or reviews, all four
connections complete on their (empty) first page. -/
def c3PR : PullRequest where
  id := "PR1"
  number := 1
  title := "t"
  body := ""
  state := "OPEN"
  headRefName := "h"
  baseRefName := "b"
  assignees := { nodes := [], pageInfo := lastPI }
  labels := { nodes := [], pageInfo := lastPI }
  comments := { nodes := [], pageInfo := lastPI }
  reviews := { nodes := [], pageInfo := lastPI }

/-- A root repository answer whose owner login is "foo" (lower case) while
the run below passes "Foo" as the owner argument: `SaveRepository` keys the
entry by the fetched fields, all later saves key by the arguments. -/
def c3Repo : Repository where
  repositoryFields := { owner := { login := "foo" }, name := "bar", nameWithOwner := "foo/bar" }
  id := "R1"
  repositoryTopics := { nodes := [], pageInfo := lastPI }
  issues := { nodes := [], pageInfo := lastPI }
  pullRequests := { nodes := [c3PR], pageInfo := lastPI }

/-- The fetcher of the C3 run: the root query answers `c3Repo`, no other
query is reached. -/
def c3F : Fetcher := { failF with rootRepository := fun _ _ => Except.ok c3Repo }

/-- The Mem state after the C3 run saved the repository under "foo"/"bar". -/
def c3MemAfter : Store.Mem :=
  { repos := [("foo", [("bar",
      { repositoryFields := c3Repo.repositoryFields, topics := [], prs := [] })])] }

/-- The Mem state holding one repository "o"/"r" with no pull requests. -/
def w8Mem : Store.Mem :=
  { repos := [("o", [("r",
      { repositoryFields := { owner := { login := "o" }, name := "r", nameWithOwner := "o/r" },
        topics := [], prs := [] })])] }

/-- The Mem state `w8Mem` after `SavePullRequest` recorded `c3PR`. -/
def w8MemAfter : Store.Mem :=
  { repos := [("o", [("r",
      { repositoryFields := { owner := { login := "o" }, name := "r", nameWithOwner := "o/r" },
        topics := [],
        prs := [(1, { pr := c3PR, assignees := [], labels := [],
                      comments := [], reviews := [] })] })])] }

/-- The recording observer backend: every storer call succeeds and carries no
state; the trace recorded by the monad is then exactly the sequence of calls
the engine issues. -/
def recStorer : Storer Unit where
  saveOrganization := fun _ _ => Except.ok ()
  saveUser := fun _ _ => Except.ok ()
  saveRepository := fun _ _ _ => Except.ok ()
  saveIssue := fun _ _ _ _ _ _ => Except.ok ()
  saveIssueComment := fun _ _ _ _ _ => Except.ok ()
  savePullRequest := fun _ _ _ _ _ _ => Except.ok ()
  savePullRequestComment := fun _ _ _ _ _ => Except.ok ()
  savePullRequestReview := fun _ _ _ _ _ => Except.ok ()
  savePullRequestReviewComment := fun _ _ _ _ _ _ => Except.ok ()
  beginTx := fun _ => Except.ok ()
  commit := fun _ => Except.ok ()
  rollback := fun _ => Except.ok ()
  version := fun _ _ => ()
  setActiveVersion := fun _ _ => Except.ok ()
  cleanup := fun _ _ => Except.ok ()

/-- The source delivers the given pages for one connection: starting from the
page info embedded in the parent entity, each fetch at the previous end
cursor succeeds with the next page, and the last page (or the embedded first
page, if no more pages) reports `hasNextPage = false`. -/
def Chain (fetch : String → Except Err (Conn α)) : PageInfo → List (Conn α) → Prop
  | info, [] => info.hasNextPage = false
  | info, p :: rest =>
    info.hasNextPage = true ∧ fetch info.endCursor = Except.ok p ∧ Chain fetch p.pageInfo rest

/-- The fetch events a string-accumulating walk of the given page chain
produces (one fetch per page after the embedded first one). -/
def fetchTrace (k : FetchKind) (id : String) : PageInfo → List (Conn α) → List Ev
  | _, [] => []
  | info, p :: rest => Ev.fetch k id info.endCursor :: fetchTrace k id p.pageInfo rest

/-- The events a node-processing walk of the given page chain produces: one
fetch per page followed by the per-node events of that page, in page order. -/
def connTrace (k : FetchKind) (id : String) (evsOf : α → List Ev) :
    PageInfo → List (Conn α) → List Ev
  | _, [] => []
  | info, p :: rest =>
    Ev.fetch k id info.endCursor ::
      (p.nodes.flatMap evsOf ++ connTrace k id evsOf p.pageInfo rest)

/-- The one save event `SaveIssueComment` produces for one comment node. -/
def sicEvs (o n : String) (num : Int) (c : IssueComment) : List Ev :=
  [Ev.saveIssueComment o n num c.id]

/-- The one save event `SavePullRequestComment` produces for one comment
node. -/
def prcEvs (o n : String) (num : Int) (c : IssueComment) : List Ev :=
  [Ev.savePullRequestComment o n num c.id]

/-- The one save event `SavePullRequestReviewComment` produces for one review
comment node. -/
def rcEvs (o n : String) (num rid : Int) (c : PullRequestReviewComment) : List Ev :=
  [Ev.savePullRequestReviewComment o n num rid c.id]

/-- The event block one review contributes: its own save followed by the
complete walk of its comments connection. -/
def reviewBlock (o n : String) (num : Int)
    (rcPages : PullRequestReview → List (Conn PullRequestReviewComment))
    (r : PullRequestReview) : List Ev :=
  Ev.savePullRequestReview o n num r.databaseId ::
    (r.comments.nodes.flatMap (rcEvs o n num r.databaseId) ++
      connTrace FetchKind.prReviewComments r.id (rcEvs o n num r.databaseId)
        r.comments.pageInfo (rcPages r))

/-- The whole list a drained string connection resolves to: the first-page
items followed by the items of every fetched page, in order. -/
def drained (item : α → String) (c : Conn α) (pages : List (Conn α)) : List String :=
  c.nodes.map item ++ (pages.map fun p => p.nodes.map item).flatten

/-- The comment id carried by a `saveIssueComment` event, if any. -/
def evSaveIssueCommentId : Ev → Option String
  | Ev.saveIssueComment _ _ _ cid => some cid
  | _ => none

/-- The three comments of the C1 concrete scenario. -/
def c1Comment1 : IssueComment := { id := "c1", authorLogin := "u1", createdAt := "t1", body := "b1" }

def c1Comment2 : IssueComment := { id := "c2", authorLogin := "u2", createdAt := "t2", body := "b2" }

def c1Comment3 : IssueComment := { id := "c3", authorLogin := "u3", createdAt := "t3", body := "b3" }

/-- The issue of the C1 concrete scenario: first comments page `[c1, c2]`
with `hasNextPage = true` and cursor "A". -/
def c1Issue : Issue where
  id := "I1"
  number := 5
  title := "iss"
  assignees := { nodes := [], pageInfo := lastPI }
  labels := { nodes := [], pageInfo := lastPI }
  comments := { nodes := [c1Comment1, c1Comment2],
                pageInfo := { hasNextPage := true, endCursor := "A" } }

/-- The second comments page `[c3]` with `hasNextPage = false`. -/
def c1Page2 : Conn IssueComment := { nodes := [c1Comment3], pageInfo := lastPI }

/-- The fetcher of the C1 scenario: the comments query at cursor "A" answers
page 2, nothing else is reachable. -/
def c1F : Fetcher := { failF with issueComments := (fun id cursor =>
  if id = "I1" ∧ cursor = "A" then Except.ok c1Page2
  else Except.error (Err.fetchFail FetchKind.issueComments id cursor)) }

/-- The review of the C5 witness: one first-page comment, complete. -/
def w5Review : PullRequestReview where
  id := "RV1"
  databaseId := 10
  authorLogin := "a"
  submittedAt := "t"
  body := "b"
  comments := { nodes := [{ id := "rc1", authorLogin := "a", createdAt := "t", body := "b" }],
                pageInfo := lastPI }

/-- The pull request of the C5 witness: one assignee, one label, one comment
and one review, every connection complete on its first page. -/
def w5PR : PullRequest where
  id := "P1"
  number := 2
  title := "t"
  body := ""
  state := "OPEN"
  headRefName := "h"
  baseRefName := "b"
  assignees := { nodes := [{ login := "al" }], pageInfo := lastPI }
  labels := { nodes := [{ name := "lb" }], pageInfo := lastPI }
  comments := { nodes := [{ id := "pc1", authorLogin := "a", createdAt := "t", body := "b" }],
                pageInfo := lastPI }
  reviews := { nodes := [w5Review], pageInfo := lastPI }

/-- The issue of the C5 witness. -/
def w5Issue : Issue where
  id := "I2"
  number := 3
  title := "t"
  assignees := { nodes := [{ login := "ia" }], pageInfo := lastPI }
  labels := { nodes := [], pageInfo := lastPI }
  comments := { nodes := [{ id := "ic1", authorLogin := "a", createdAt := "t", body := "b" }],
                pageInfo := lastPI }

/-- Is this event a `SaveRepository` call? -/
def isSaveRepositoryEv : Ev → Bool
  | Ev.saveRepository _ _ _ => true
  | _ => false

/-- Is this event a `SaveOrganization` call? -/
def isSaveOrganizationEv : Ev → Bool
  | Ev.saveOrganization _ => true
  | _ => false

/-- Is this event the `SavePullRequest` call for the given repository and
pull-request number? -/
def isSavePullRequestEv (o n : String) (num : Int) : Ev → Bool
  | Ev.savePullRequest o' n' num' _ _ => (o == o') && (n == n') && (num == num')
  | _ => false

/-- Is this event the `SavePullRequestReview` call for the given repository,
pull-request number and review database id? -/
def isSavePullRequestReviewEv (o n : String) (num rid : Int) : Ev → Bool
  | Ev.savePullRequestReview o' n' num' rid' =>
    (o == o') && (n == n') && (num == num') && (rid == rid')
  | _ => false

/-- The parent save a child save event requires (for the parent and child
entity pairs the ordering invariant names): a `SaveIssue` or
`SavePullRequest` requires an earlier `SaveRepository`; a
`SavePullRequestComment` or `SavePullRequestReview` requires the earlier
`SavePullRequest` of the same repository and number; a
`SavePullRequestReviewComment` requires the earlier `SavePullRequestReview`
of the same repository, number and review id; a `SaveUser` requires an
earlier `SaveOrganization`.  Events of other kinds require nothing. -/
def parentFor : Ev → Option (Ev → Bool)
  | Ev.saveIssue _ _ _ _ _ => some isSaveRepositoryEv
  | Ev.savePullRequest _ _ _ _ _ => some isSaveRepositoryEv
  | Ev.savePullRequestComment o n num _ => some (isSavePullRequestEv o n num)
  | Ev.savePullRequestReview o n num _ => some (isSavePullRequestEv o n num)
  | Ev.savePullRequestReviewComment o n num rid _ =>
    some (isSavePullRequestReviewEv o n num rid)
  | Ev.saveUser _ => some isSaveOrganizationEv
  | _ => none

/-- Every event of the list whose `parentFor` is set is preceded (within the
list, or in the already-seen events) by a matching parent event. -/
def orderOKfrom (seen : List Ev) : List Ev → Bool
  | [] => true
  | e :: rest =>
    (match parentFor e with
     | none => true
     | some p => seen.any p) && orderOKfrom (e :: seen) rest

/-- The ordering invariant of a whole trace. -/
def orderOK (tr : List Ev) : Bool := orderOKfrom [] tr

/-- Is this event one of the transaction-boundary calls? -/
def Ev.isTx : Ev → Bool
  | Ev.version _ => true
  | Ev.beginTx => true
  | Ev.commit => true
  | Ev.rollback => true
  | _ => false

/-- Is this event a fetch on a reviews connection? -/
def isPrReviewsFetch : Ev → Bool
  | Ev.fetch FetchKind.prReviews _ _ => true
  | _ => false

/-- The event discipline of everything inside a transaction body: no
transaction-boundary event is ever emitted there. -/
def Qbody (e : Ev) : Bool := !e.isTx

/-- The event discipline below the reviews pagination loop: additionally, no
fetch on a reviews connection. -/
def Qrev (e : Ev) : Bool := !e.isTx && !isPrReviewsFetch e

/-- A computation only appends events to the trace, all appended events
satisfy `Q`, and — whenever the already-seen events satisfy `C` — the
appended events satisfy the ordering invariant relative to them.  This holds
for any backend and any fetcher, on success and on failure alike. -/
def Appends (C : List Ev → Prop) (Q : Ev → Bool) (m : DlM σ α) : Prop :=
  ∀ s : DlState σ, ∃ Δ, ((m s).2).trace = s.trace ++ Δ ∧ Δ.all Q = true ∧
    ∀ seen, C seen → orderOKfrom seen Δ = true

/-- `C` is stable under seeing more events. -/
def MonoC (C : List Ev → Prop) : Prop := ∀ seen more, C seen → C (more ++ seen)

namespace Bridge

/-- Written from the claim: the top-level comment writes of one migrated
pull request, one per stored comment in order, ids assigned sequentially
from `c0`. -/
def specTopComments (prId : Int) : List IssueComment → Nat → List BitEv
  | [], _ => []
  | c :: rest, c0 =>
    BitEv.createComment prId (BitPayload.topComment c) none c0 ::
      specTopComments prId rest (c0 + 1)

/-- Written from the claim: the nested comment writes of one review, each
attached as a child of the created review comment `parent`. -/
def specNested (prId : Int) (parent : Nat) :
    List PullRequestReviewComment → Nat → List BitEv
  | [], _ => []
  | c :: rest, c0 =>
    BitEv.createComment prId (BitPayload.nestedComment c) (some parent) c0 ::
      specNested prId parent rest (c0 + 1)

/-- The number of writes one review thread produces: its header comment plus
its nested comments. -/
def reviewBlockLen (rv : Store.PullRequestReview) : Nat := 1 + rv.comments.length

/-- Written from the claim: one review's writes — the review header comment
(id `c0`), immediately followed by that review's nested comments attached as
children of the header. -/
def specReviewBlock (prId : Int) (rv : Store.PullRequestReview) (c0 : Nat) : List BitEv :=
  BitEv.createComment prId (BitPayload.reviewHeader rv.review) none c0 ::
    specNested prId c0 rv.comments (c0 + 1)

/-- Written from the claim: the review threads of one migrated pull request,
block after block. -/
def specReviewEvs (prId : Int) : GoMap Int Store.PullRequestReview → Nat → List BitEv
  | [], _ => []
  | (_, rv) :: rest, c0 =>
    specReviewBlock prId rv c0 ++ specReviewEvs prId rest (c0 + reviewBlockLen rv)

/-- The number of writes one migrated pull request produces. -/
def specPRBlockLen (p : Store.PullRequest) : Nat :=
  1 + p.comments.length + (p.reviews.map fun kv => reviewBlockLen kv.2).sum

/-- Written from the claim: the writes of one migrated pull request, in
order — create the pull request, then all of its top-level comments, then
each review followed immediately by that review's nested comments. -/
def specPRBlock (prId : Int) (p : Store.PullRequest) (c0 : Nat) : List BitEv :=
  BitEv.createPR prId p.pr c0 ::
    (specTopComments prId p.comments (c0 + 1) ++
      specReviewEvs prId p.reviews (c0 + 1 + p.comments.length))

/-- Written from the claim: every pull request whose state is not "OPEN" is
skipped with no write at all; each open pull request contributes its block. -/
def specMigrate : GoMap Int Store.PullRequest → Nat → List BitEv
  | [], _ => []
  | (k, p) :: rest, c0 =>
    if p.pr.state = "OPEN" then
      specPRBlock k p c0 ++ specMigrate rest (c0 + specPRBlockLen p)
    else specMigrate rest c0

end Bridge

end MetadataRetrieval

namespace MetadataRetrieval

namespace DlM

@[simp] theorem pure_apply (a : α) (s : DlState σ) :
    (Pure.pure a : DlM σ α) s = (Except.ok a, s) := rfl

@[simp] theorem bind_apply (m : DlM σ α) (f : α → DlM σ β) (s : DlState σ) :
    (Bind.bind m f : DlM σ β) s =
      match m s with
      | (Except.ok a, s') => f a s'
      | (Except.error e, s') => (Except.error e, s') := rfl

end DlM

@[simp] theorem throwE_apply (e : Err) (s : DlState σ) :
    (throwE e : DlM σ α) s = (Except.error e, s) := rfl

@[simp] theorem doFetch_apply (k : FetchKind) (id cursor : String)
    (r : Except Err α) (s : DlState σ) :
    (doFetch k id cursor r : DlM σ α) s =
      (r, { s with trace := s.trace ++ [Ev.fetch k id cursor] }) := rfl

@[simp] theorem callStore_apply (e : Ev) (f : σ → Except Err σ) (s : DlState σ) :
    (callStore e f : DlM σ Unit) s =
      match f s.store with
      | Except.ok st => (Except.ok (), { store := st, trace := s.trace ++ [e] })
      | Except.error err => (Except.error err, { s with trace := s.trace ++ [e] }) := rfl

@[simp] theorem wrapNode_apply (msg : String) (m : DlM σ Unit) (s : DlState σ) :
    wrapNode msg m s =
      match m s with
      | (Except.ok a, s') => (Except.ok a, s')
      | (Except.error e, s') => (Except.error (Err.wrap msg e), s') := rfl

@[simp] theorem gmFind_nil [DecidableEq κ] (k : κ) :
    gmFind ([] : GoMap κ ν) k = none := rfl

@[simp] theorem gmFind_cons [DecidableEq κ] (k k' : κ) (v : ν) (rest : GoMap κ ν) :
    gmFind ((k', v) :: rest) k = if k = k' then some v else gmFind rest k := rfl

@[simp] theorem gmInsert_nil [DecidableEq κ] (k : κ) (v : ν) :
    gmInsert ([] : GoMap κ ν) k v = [(k, v)] := rfl

@[simp] theorem gmInsert_cons [DecidableEq κ] (k k' : κ) (v v' : ν) (rest : GoMap κ ν) :
    gmInsert ((k', v') :: rest) k v =
      if k = k' then (k, v) :: rest else (k', v') :: gmInsert rest k v := rfl

theorem gmFind_gmInsert_self [DecidableEq κ] (m : GoMap κ ν) (k : κ) (v : ν) :
    gmFind (gmInsert m k v) k = some v := by
  induction m with
  | nil => simp
  | cons hd tl ih =>
    obtain ⟨k', v'⟩ := hd
    by_cases h : k = k' <;> simp [h, ih]

namespace Store

theorem memSaveRepository_repoAt (fields : RepositoryFields)
    (topics : List String) (m : Mem) :
    ∃ m', memSaveRepository fields topics m = Except.ok m' ∧
      m'.repoAt fields.owner.login fields.name =
        some { repositoryFields := fields, topics := topics, prs := [] } := by
  refine ⟨_, rfl, ?_⟩
  simp [memSaveRepository, Mem.repoAt, gmFind_gmInsert_self]

theorem memSavePullRequest_prAt (owner name : String)
    (pr : MetadataRetrieval.PullRequest) (assignees labels : List String)
    (m m' : Mem) (h : memSavePullRequest owner name pr assignees labels m = Except.ok m') :
    m'.prAt owner name pr.number =
      some { pr := pr, assignees := assignees, labels := labels,
             comments := [], reviews := [] } := by
  unfold memSavePullRequest at h
  cases hrepo : gmFind ((gmFind m.repos owner).getD []) name with
  | none => simp [hrepo] at h
  | some repo =>
    simp [hrepo] at h
    subst h
    simp [Mem.prAt, Mem.repoAt, gmFind_gmInsert_self]

theorem memSavePullRequestComment_prAt (owner name : String)
    (number : Int) (comment : IssueComment) (m m' : Mem)
    (h : memSavePullRequestComment owner name number comment m = Except.ok m') :
    ∃ p, m.prAt owner name number = some p ∧
      m'.prAt owner name number = some { p with comments := p.comments ++ [comment] } := by
  unfold memSavePullRequestComment at h
  cases hrepo : gmFind ((gmFind m.repos owner).getD []) name with
  | none => simp [hrepo] at h
  | some repo =>
    cases hpr : gmFind repo.prs number with
    | none => simp [hrepo, hpr] at h
    | some prEntry =>
      simp [hrepo, hpr] at h
      subst h
      refine ⟨prEntry, ?_, ?_⟩
      · simp [Mem.prAt, Mem.repoAt, hrepo, hpr]
      · simp [Mem.prAt, Mem.repoAt, gmFind_gmInsert_self]

theorem memSavePullRequestReview_reviewAt (owner name : String)
    (number : Int) (review : MetadataRetrieval.PullRequestReview) (m m' : Mem)
    (h : memSavePullRequestReview owner name number review m = Except.ok m') :
    m'.reviewAt owner name number review.databaseId =
      some { review := review, comments := [] } := by
  unfold memSavePullRequestReview at h
  cases hrepo : gmFind ((gmFind m.repos owner).getD []) name with
  | none => simp [hrepo] at h
  | some repo =>
    cases hpr : gmFind repo.prs number with
    | none => simp [hrepo, hpr] at h
    | some prEntry =>
      simp [hrepo, hpr] at h
      subst h
      simp [Mem.reviewAt, Mem.prAt, Mem.repoAt, gmFind_gmInsert_self]

theorem memSavePullRequestReviewComment_reviewAt (owner name : String)
    (number reviewId : Int) (comment : PullRequestReviewComment) (m m' : Mem)
    (h : memSavePullRequestReviewComment owner name number reviewId comment m = Except.ok m') :
    ∃ rv, m.reviewAt owner name number reviewId = some rv ∧
      m'.reviewAt owner name number reviewId =
        some { rv with comments := rv.comments ++ [comment] } := by
  unfold memSavePullRequestReviewComment at h
  cases hrepo : gmFind ((gmFind m.repos owner).getD []) name with
  | none => simp [hrepo] at h
  | some repo =>
    cases hpr : gmFind repo.prs number with
    | none => simp [hrepo, hpr] at h
    | some prEntry =>
      cases hrv : gmFind prEntry.reviews reviewId with
      | none => simp [hrepo, hpr, hrv] at h
      | some reviewEntry =>
        simp [hrepo, hpr, hrv] at h
        subst h
        refine ⟨reviewEntry, ?_, ?_⟩
        · simp [Mem.reviewAt, Mem.prAt, Mem.repoAt, hrepo, hpr, hrv]
        · simp [Mem.reviewAt, Mem.prAt, Mem.repoAt, gmFind_gmInsert_self]

theorem memSavePullRequest_absent (owner name : String)
    (pr : MetadataRetrieval.PullRequest) (assignees labels : List String) (m : Mem)
    (h : m.repoAt owner name = none) :
    memSavePullRequest owner name pr assignees labels m = Except.error Err.notFound := by
  unfold Mem.repoAt at h
  unfold memSavePullRequest
  simp [h]

theorem memSavePullRequestComment_absent (owner name : String)
    (number : Int) (comment : IssueComment) (m : Mem)
    (h : m.prAt owner name number = none) :
    memSavePullRequestComment owner name number comment m = Except.error Err.notFound := by
  unfold Mem.prAt Mem.repoAt at h
  unfold memSavePullRequestComment
  cases hrepo : gmFind ((gmFind m.repos owner).getD []) name with
  | none => simp [hrepo]
  | some repo =>
    rw [hrepo] at h
    simp at h
    simp [hrepo, h]

theorem memSavePullRequestReview_absent (owner name : String)
    (number : Int) (review : MetadataRetrieval.PullRequestReview) (m : Mem)
    (h : m.prAt owner name number = none) :
    memSavePullRequestReview owner name number review m = Except.error Err.notFound := by
  unfold Mem.prAt Mem.repoAt at h
  unfold memSavePullRequestReview
  cases hrepo : gmFind ((gmFind m.repos owner).getD []) name with
  | none => simp [hrepo]
  | some repo =>
    rw [hrepo] at h
    simp at h
    simp [hrepo, h]

theorem memSavePullRequestReviewComment_absent (owner name : String)
    (number reviewId : Int) (comment : PullRequestReviewComment) (m : Mem)
    (h : m.reviewAt owner name number reviewId = none) :
    memSavePullRequestReviewComment owner name number reviewId comment m =
      Except.error Err.notFound := by
  unfold Mem.reviewAt Mem.prAt Mem.repoAt at h
  unfold memSavePullRequestReviewComment
  cases hrepo : gmFind ((gmFind m.repos owner).getD []) name with
  | none => simp [hrepo]
  | some repo =>
    rw [hrepo] at h
    simp at h
    cases hpr : gmFind repo.prs number with
    | none => simp [hrepo, hpr]
    | some prEntry =>
      rw [hpr] at h
      simp at h
      simp [hrepo, hpr, h]

end Store

/-- Claim C3 counterexample: a full `DownloadRepository` run on the in-memory
backend, starting from a store with zero repositories, in which a Save call
fails (`SavePullRequest` returns `NotFound` because the repository entry was
keyed by the fetched owner login "foo" while the saves key by the argument
owner "Foo"): the run aborts, `Rollback` is invoked, and the store afterwards
still holds the saved repository, so its state after the triggered Rollback
is not equal to its state before `Begin`. -/
theorem claim_c3_counterexample :
    (downloadRepository memStorer c3F 1 "Foo" "bar" 1
        { store := { repos := [] }, trace := [] }).1 =
      Except.error (Err.wrap "failed to process PR" Err.notFound) ∧
    Store.memSavePullRequest "Foo" "bar" c3PR [] [] c3MemAfter =
      Except.error Err.notFound ∧
    (downloadRepository memStorer c3F 1 "Foo" "bar" 1
        { store := { repos := [] }, trace := [] }).2.trace.getLast? =
      some Ev.rollback ∧
    (downloadRepository memStorer c3F 1 "Foo" "bar" 1
        { store := { repos := [] }, trace := [] }).2.store = c3MemAfter ∧
    c3MemAfter ≠ { repos := [] } := by
  refine ⟨by decide, by decide, by decide, by decide, by decide⟩

/-- Claim C3 (amended): transaction atomicity in the sense that the state
after Rollback equals the state before Begin holds only for backends whose
Rollback actually restores; the in-memory backend's Begin, Commit and
Rollback are no-ops, so after a failed traversal its store keeps exactly the
successful saves performed before the failure: Rollback leaves the in-memory
store unchanged from the moment of the failure. -/
theorem claim_c3_amended (s : DlState Store.Mem) :
    (rollbackState memStorer s).store = s.store ∧
    memStorer.rollback s.store = Except.ok s.store ∧
    memStorer.beginTx s.store = Except.ok s.store ∧
    memStorer.commit s.store = Except.ok s.store := by
  refine ⟨rfl, rfl, rfl, rfl⟩

/-- Claim C7: for every store state in which pull request number N of the
given repository has not been saved, saving a PullRequestComment for N yields
the not-found condition and leaves the store unchanged; inside the traversal
the enclosing `downloadPullRequestComments` aborts immediately with that
error after the single failing save call (with the store untouched), and the
Rollback the abort triggers also leaves the in-memory store unchanged. -/
theorem claim_c7_pr_comment_notfound (o n : String) (N : Int) (c : IssueComment)
    (rest : List IssueComment) (pr : PullRequest) (m : Store.Mem) (tr : List Ev)
    (F : Fetcher) (fuel : Nat)
    (hnum : pr.number = N) (hfirst : pr.comments.nodes = c :: rest)
    (habs : m.prAt o n N = none) :
    Store.memSavePullRequestComment o n N c m = Except.error Err.notFound ∧
    downloadPullRequestComments memStorer F fuel o n pr { store := m, trace := tr } =
      (Except.error (Err.wrap "failed to save PR comments" Err.notFound),
        { store := m, trace := tr ++ [Ev.savePullRequestComment o n N c.id] }) ∧
    (rollbackState memStorer
        { store := m, trace := tr ++ [Ev.savePullRequestComment o n N c.id] }).store = m := by
  have hsave : Store.memSavePullRequestComment o n N c m = Except.error Err.notFound :=
    Store.memSavePullRequestComment_absent o n N c m habs
  refine ⟨hsave, ?_, rfl⟩
  unfold downloadPullRequestComments
  rw [hfirst]
  show (Bind.bind (Bind.bind (savePullRequestCommentCall memStorer o n pr.number c) _) _) _ = _
  simp [savePullRequestCommentCall, hnum, hsave, memStorer]

/-- Claim C7 witness: the concrete scenario of the spec, pull request number
7 never saved (empty store). -/
theorem claim_c7_witness :
    ((⟨"p7", 7, "t", "", "OPEN", "h", "b",
        { nodes := [], pageInfo := lastPI }, { nodes := [], pageInfo := lastPI },
        { nodes := [⟨"c7", "bob", "t7", "hello"⟩], pageInfo := lastPI },
        { nodes := [], pageInfo := lastPI }⟩ : PullRequest).number = 7 ∧
      (⟨"p7", 7, "t", "", "OPEN", "h", "b",
        { nodes := [], pageInfo := lastPI }, { nodes := [], pageInfo := lastPI },
        { nodes := [⟨"c7", "bob", "t7", "hello"⟩], pageInfo := lastPI },
        { nodes := [], pageInfo := lastPI }⟩ : PullRequest).comments.nodes =
        [⟨"c7", "bob", "t7", "hello"⟩] ∧
      (Store.Mem.mk []).prAt "o" "r" 7 = none) ∧
    downloadPullRequestComments memStorer failF 0 "o" "r"
        (⟨"p7", 7, "t", "", "OPEN", "h", "b",
          { nodes := [], pageInfo := lastPI }, { nodes := [], pageInfo := lastPI },
          { nodes := [⟨"c7", "bob", "t7", "hello"⟩], pageInfo := lastPI },
          { nodes := [], pageInfo := lastPI }⟩ : PullRequest)
        { store := { repos := [] }, trace := [] } =
      (Except.error (Err.wrap "failed to save PR comments" Err.notFound),
        { store := { repos := [] },
          trace := [Ev.savePullRequestComment "o" "r" 7 "c7"] }) := by
  refine ⟨⟨rfl, rfl, by decide⟩, ?_⟩
  exact (claim_c7_pr_comment_notfound "o" "r" 7 ⟨"c7", "bob", "t7", "hello"⟩ [] _
    { repos := [] } [] failF 0 rfl rfl (by decide)).2.1

/-- Claim C8: in the transient in-memory backend, SaveIssue and
SaveIssueComment only produce trace output and leave the Repos mapping
unchanged for every input, while SaveRepository, SavePullRequest,
SavePullRequestComment, SavePullRequestReview and
SavePullRequestReviewComment record their entity in the Repos mapping on
success. -/
theorem claim_c8_mem_persistence :
    (∀ (o n : String) (i : Issue) (a l : List String) (m : Store.Mem),
      Store.memSaveIssue o n i a l m = Except.ok m) ∧
    (∀ (o n : String) (k : Int) (c : IssueComment) (m : Store.Mem),
      Store.memSaveIssueComment o n k c m = Except.ok m) ∧
    (∀ (f : RepositoryFields) (t : List String) (m : Store.Mem),
      ∃ m', Store.memSaveRepository f t m = Except.ok m' ∧
        m'.repoAt f.owner.login f.name =
          some { repositoryFields := f, topics := t, prs := [] }) ∧
    (∀ (o n : String) (pr : PullRequest) (a l : List String) (m m' : Store.Mem),
      Store.memSavePullRequest o n pr a l m = Except.ok m' →
        m'.prAt o n pr.number =
          some { pr := pr, assignees := a, labels := l, comments := [], reviews := [] }) ∧
    (∀ (o n : String) (num : Int) (c : IssueComment) (m m' : Store.Mem),
      Store.memSavePullRequestComment o n num c m = Except.ok m' →
        ∃ p, m.prAt o n num = some p ∧
          m'.prAt o n num = some { p with comments := p.comments ++ [c] }) ∧
    (∀ (o n : String) (num : Int) (r : PullRequestReview) (m m' : Store.Mem),
      Store.memSavePullRequestReview o n num r m = Except.ok m' →
        m'.reviewAt o n num r.databaseId = some { review := r, comments := [] }) ∧
    (∀ (o n : String) (num rid : Int) (c : PullRequestReviewComment) (m m' : Store.Mem),
      Store.memSavePullRequestReviewComment o n num rid c m = Except.ok m' →
        ∃ rv, m.reviewAt o n num rid = some rv ∧
          m'.reviewAt o n num rid = some { rv with comments := rv.comments ++ [c] }) := by
  refine ⟨fun _ _ _ _ _ _ => rfl, fun _ _ _ _ _ => rfl,
    fun f t m => Store.memSaveRepository_repoAt f t m,
    fun o n pr a l m m' h => Store.memSavePullRequest_prAt o n pr a l m m' h,
    fun o n num c m m' h => Store.memSavePullRequestComment_prAt o n num c m m' h,
    fun o n num r m m' h => Store.memSavePullRequestReview_reviewAt o n num r m m' h,
    fun o n num rid c m m' h =>
      Store.memSavePullRequestReviewComment_reviewAt o n num rid c m m' h⟩

/-- Claim C8 witness: concrete instances of the no-op saves and of the
recording save. -/
theorem claim_c8_witness :
    Store.memSaveIssueComment "o" "r" 3 ⟨"x", "a", "t", "b"⟩ w8Mem = Except.ok w8Mem ∧
    Store.memSavePullRequest "o" "r" c3PR [] [] w8Mem = Except.ok w8MemAfter ∧
    w8MemAfter.prAt "o" "r" c3PR.number =
      some { pr := c3PR, assignees := [], labels := [], comments := [], reviews := [] } := by
  refine ⟨claim_c8_mem_persistence.2.1 "o" "r" 3 ⟨"x", "a", "t", "b"⟩ w8Mem, by decide, ?_⟩
  exact claim_c8_mem_persistence.2.2.2.1 "o" "r" c3PR [] [] w8Mem w8MemAfter (by decide)

/-- Claim C10: every Save method of the in-memory backend is total at the
public interface: whenever the referenced owner, repository name, pull
request number or review id is absent at any level of the nesting (reading
through possibly absent nested maps, the Go nil-map zero-value reads, which
never panic), `SavePullRequest`, `SavePullRequestComment`,
`SavePullRequestReview` and `SavePullRequestReviewComment` return the
NotFound error, and the downloader-visible store state after the failing
call is unchanged.  Totality itself is by construction of the embedding:
each method is a total function, mirroring that the Go code only reads
(never writes) maps before its NotFound returns. -/
theorem claim_c10_mem_total_notfound :
    (∀ (o n : String) (pr : PullRequest) (a l : List String) (m : Store.Mem)
        (tr : List Ev), m.repoAt o n = none →
      Store.memSavePullRequest o n pr a l m = Except.error Err.notFound ∧
      ((callStore (Ev.savePullRequest o n pr.number a l)
        (memStorer.savePullRequest o n pr a l)) { store := m, trace := tr }).2.store = m) ∧
    (∀ (o n : String) (num : Int) (c : IssueComment) (m : Store.Mem)
        (tr : List Ev), m.prAt o n num = none →
      Store.memSavePullRequestComment o n num c m = Except.error Err.notFound ∧
      ((callStore (Ev.savePullRequestComment o n num c.id)
        (memStorer.savePullRequestComment o n num c)) { store := m, trace := tr }).2.store = m) ∧
    (∀ (o n : String) (num : Int) (r : PullRequestReview) (m : Store.Mem)
        (tr : List Ev), m.prAt o n num = none →
      Store.memSavePullRequestReview o n num r m = Except.error Err.notFound ∧
      ((callStore (Ev.savePullRequestReview o n num r.databaseId)
        (memStorer.savePullRequestReview o n num r)) { store := m, trace := tr }).2.store = m) ∧
    (∀ (o n : String) (num rid : Int) (c : PullRequestReviewComment) (m : Store.Mem)
        (tr : List Ev), m.reviewAt o n num rid = none →
      Store.memSavePullRequestReviewComment o n num rid c m = Except.error Err.notFound ∧
      ((callStore (Ev.savePullRequestReviewComment o n num rid c.id)
        (memStorer.savePullRequestReviewComment o n num rid c))
          { store := m, trace := tr }).2.store = m) := by
  refine ⟨?_, ?_, ?_, ?_⟩
  · intro o n pr a l m tr h
    have hs := Store.memSavePullRequest_absent o n pr a l m h
    exact ⟨hs, by simp [callStore, memStorer, hs]⟩
  · intro o n num c m tr h
    have hs := Store.memSavePullRequestComment_absent o n num c m h
    exact ⟨hs, by simp [callStore, memStorer, hs]⟩
  · intro o n num r m tr h
    have hs := Store.memSavePullRequestReview_absent o n num r m h
    exact ⟨hs, by simp [callStore, memStorer, hs]⟩
  · intro o n num rid c m tr h
    have hs := Store.memSavePullRequestReviewComment_absent o n num rid c m h
    exact ⟨hs, by simp [callStore, memStorer, hs]⟩

/-- Claim C10 witness: concrete absent parents at every level against the
store holding only repository "o"/"r". -/
theorem claim_c10_witness :
    ((Store.Mem.mk []).repoAt "o" "r" = none ∧
      Store.memSavePullRequest "o" "r" c3PR [] [] { repos := [] } =
        Except.error Err.notFound) ∧
    (w8Mem.prAt "o" "r" 7 = none ∧
      Store.memSavePullRequestComment "o" "r" 7 ⟨"c", "a", "t", "b"⟩ w8Mem =
        Except.error Err.notFound) ∧
    (w8MemAfter.reviewAt "o" "r" 1 99 = none ∧
      Store.memSavePullRequestReviewComment "o" "r" 1 99 ⟨"rc", "a", "t", "b"⟩ w8MemAfter =
        Except.error Err.notFound) := by
  refine ⟨⟨by decide, ?_⟩, ⟨by decide, ?_⟩, ⟨by decide, ?_⟩⟩
  · exact (claim_c10_mem_total_notfound.1 "o" "r" c3PR [] [] { repos := [] } []
      (by decide)).1
  · exact (claim_c10_mem_total_notfound.2.1 "o" "r" 7 ⟨"c", "a", "t", "b"⟩ w8Mem []
      (by decide)).1
  · exact (claim_c10_mem_total_notfound.2.2.2 "o" "r" 1 99 ⟨"rc", "a", "t", "b"⟩ w8MemAfter []
      (by decide)).1

@[simp] theorem recStorer_saveIssue_eq (o n : String) (i : Issue) (a l : List String)
    (u : Unit) : recStorer.saveIssue o n i a l u = Except.ok () := rfl

@[simp] theorem recStorer_savePullRequest_eq (o n : String) (pr : PullRequest)
    (a l : List String) (u : Unit) : recStorer.savePullRequest o n pr a l u = Except.ok () := rfl

theorem stringsLoop_chain (k : FetchKind)
    (fetch₂ : String → String → Except Err (Conn α)) (item : α → String)
    (id msg : String) :
    ∀ (pages : List (Conn α)) (info : PageInfo) (fuel : Nat) (acc : List String)
      (s : DlState σ), Chain (fetch₂ id) info pages → pages.length ≤ fuel →
      stringsLoop k fetch₂ item id msg fuel info.hasNextPage info.endCursor acc s =
        (Except.ok (acc ++ (pages.map fun p => p.nodes.map item).flatten),
          { s with trace := s.trace ++ fetchTrace k id info pages }) := by
  intro pages
  induction pages with
  | nil =>
    intro info fuel acc s hch _
    have hfalse : info.hasNextPage = false := hch
    rw [hfalse]
    cases fuel <;> simp [stringsLoop, fetchTrace]
  | cons p rest ih =>
    intro info fuel acc s hch hfuel
    obtain ⟨htrue, hfetch, hrest⟩ := hch
    rw [htrue]
    cases fuel with
    | zero => simp at hfuel
    | succ fuel =>
      have hfuel' : rest.length ≤ fuel := by simpa using hfuel
      have ihr := ih p.pageInfo fuel (acc ++ p.nodes.map item)
        { s with trace := s.trace ++ [Ev.fetch k id info.endCursor] } hrest hfuel'
      simp only [stringsLoop, DlM.bind_apply, doFetch_apply, hfetch, wrapE]
      rw [ihr]
      simp [fetchTrace, List.append_assoc]

theorem forEachM_evs (onNode : α → DlM σ Unit) (evsOf : α → List Ev) :
    ∀ (l : List α), (∀ a ∈ l, ∀ s', onNode a s' =
        (Except.ok (), { s' with trace := s'.trace ++ evsOf a })) →
      ∀ s, forEachM onNode l s =
        (Except.ok (), { s with trace := s.trace ++ l.flatMap evsOf }) := by
  intro l
  induction l with
  | nil => intro _ s; simp [forEachM]
  | cons a rest ih =>
    intro hon s
    have ha := hon a (List.mem_cons_self a rest) s
    have hr := ih (fun b hb => hon b (List.mem_cons_of_mem a hb))
      { s with trace := s.trace ++ evsOf a }
    simp only [forEachM, DlM.bind_apply, ha]
    rw [hr]
    simp [List.append_assoc]

theorem nodesLoop_false (k : FetchKind)
    (fetch₂ : String → String → Except Err (Conn α)) (onNode : α → DlM σ Unit)
    (id msg cursor : String) (fuel : Nat) :
    nodesLoop k fetch₂ onNode id msg fuel false cursor = (pure () : DlM σ Unit) := by
  cases fuel <;> rfl

theorem nodesLoop_chain (k : FetchKind)
    (fetch₂ : String → String → Except Err (Conn α)) (onNode : α → DlM σ Unit)
    (id msg : String) (evsOf : α → List Ev) :
    ∀ (pages : List (Conn α)) (info : PageInfo) (fuel : Nat) (s : DlState σ),
      Chain (fetch₂ id) info pages → pages.length ≤ fuel →
      (∀ a ∈ (pages.map Conn.nodes).flatten, ∀ s', onNode a s' =
        (Except.ok (), { s' with trace := s'.trace ++ evsOf a })) →
      nodesLoop k fetch₂ onNode id msg fuel info.hasNextPage info.endCursor s =
        (Except.ok (), { s with trace := s.trace ++ connTrace k id evsOf info pages }) := by
  intro pages
  induction pages with
  | nil =>
    intro info fuel s hch _ _
    have hfalse : info.hasNextPage = false := hch
    rw [hfalse]
    cases fuel <;> simp [nodesLoop, connTrace]
  | cons p rest ih =>
    intro info fuel s hch hfuel hon
    obtain ⟨htrue, hfetch, hrest⟩ := hch
    rw [htrue]
    cases fuel with
    | zero => simp at hfuel
    | succ fuel =>
      have hfuel' : rest.length ≤ fuel := by simpa using hfuel
      have honp : ∀ a ∈ p.nodes, ∀ s', onNode a s' =
          (Except.ok (), { s' with trace := s'.trace ++ evsOf a }) := by
        intro a ha
        exact hon a (by simp [ha])
      have honr : ∀ a ∈ (rest.map Conn.nodes).flatten, ∀ s', onNode a s' =
          (Except.ok (), { s' with trace := s'.trace ++ evsOf a }) := by
        intro a ha
        exact hon a (by simp at ha ⊢; exact Or.inr ha)
      have hfe := forEachM_evs onNode evsOf p.nodes honp
        { s with trace := s.trace ++ [Ev.fetch k id info.endCursor] }
      have ihr := ih p.pageInfo fuel
        { s with trace := (s.trace ++ [Ev.fetch k id info.endCursor]) ++ p.nodes.flatMap evsOf }
        hrest hfuel' honr
      simp only [nodesLoop, DlM.bind_apply, doFetch_apply, hfetch, wrapE]
      rw [hfe]
      simp only [DlM.bind_apply]
      rw [ihr]
      simp [connTrace, List.append_assoc]

theorem downloadIssueComments_recTrace (o n : String) (issue : Issue) (F : Fetcher)
    (fuel : Nat) (pages : List (Conn IssueComment))
    (hch : Chain (F.issueComments issue.id) issue.comments.pageInfo pages)
    (hfuel : pages.length ≤ fuel) (s : DlState Unit) :
    downloadIssueComments recStorer F fuel o n issue s =
      (Except.ok (), { s with trace := (s.trace
        ++ issue.comments.nodes.flatMap (sicEvs o n issue.number)
        ++ connTrace FetchKind.issueComments issue.id (sicEvs o n issue.number)
            issue.comments.pageInfo pages) }) := by
  have h1 := forEachM_evs (saveIssueCommentCall recStorer o n issue.number)
    (sicEvs o n issue.number) issue.comments.nodes (fun a _ s' => rfl) s
  have h2 := nodesLoop_chain FetchKind.issueComments F.issueComments
    (fun c => wrapNode "failed to save issue comments"
      (saveIssueCommentCall recStorer o n issue.number c))
    issue.id "failed to query issue comments" (sicEvs o n issue.number)
    pages issue.comments.pageInfo fuel
    { s with trace := s.trace ++ issue.comments.nodes.flatMap (sicEvs o n issue.number) }
    hch hfuel (fun a _ s' => rfl)
  unfold downloadIssueComments
  simp only [DlM.bind_apply, h1]
  rw [h2]

theorem downloadPullRequestComments_recTrace (o n : String) (pr : PullRequest)
    (F : Fetcher) (fuel : Nat) (pages : List (Conn IssueComment))
    (hch : Chain (F.prComments pr.id) pr.comments.pageInfo pages)
    (hfuel : pages.length ≤ fuel) (s : DlState Unit) :
    downloadPullRequestComments recStorer F fuel o n pr s =
      (Except.ok (), { s with trace := (s.trace
        ++ pr.comments.nodes.flatMap (prcEvs o n pr.number)
        ++ connTrace FetchKind.prComments pr.id (prcEvs o n pr.number)
            pr.comments.pageInfo pages) }) := by
  have h1 := forEachM_evs (savePullRequestCommentCall recStorer o n pr.number)
    (prcEvs o n pr.number) pr.comments.nodes (fun a _ s' => rfl) s
  have h2 := nodesLoop_chain FetchKind.prComments F.prComments
    (savePullRequestCommentCall recStorer o n pr.number)
    pr.id "failed to query PR comments" (prcEvs o n pr.number)
    pages pr.comments.pageInfo fuel
    { s with trace := s.trace ++ pr.comments.nodes.flatMap (prcEvs o n pr.number) }
    hch hfuel (fun a _ s' => rfl)
  unfold downloadPullRequestComments
  simp only [DlM.bind_apply, h1]
  rw [h2]

theorem downloadReviewComments_recTrace (o n : String) (num : Int)
    (review : PullRequestReview) (F : Fetcher) (fuel : Nat)
    (pages : List (Conn PullRequestReviewComment))
    (hch : Chain (F.prReviewComments review.id) review.comments.pageInfo pages)
    (hfuel : pages.length ≤ fuel) (s : DlState Unit) :
    downloadReviewComments recStorer F fuel o n num review s =
      (Except.ok (), { s with trace := (s.trace
        ++ review.comments.nodes.flatMap (rcEvs o n num review.databaseId)
        ++ connTrace FetchKind.prReviewComments review.id
            (rcEvs o n num review.databaseId) review.comments.pageInfo pages) }) := by
  have h1 := forEachM_evs (saveReviewCommentCall recStorer o n num review)
    (rcEvs o n num review.databaseId) review.comments.nodes (fun a _ s' => rfl) s
  have h2 := nodesLoop_chain FetchKind.prReviewComments F.prReviewComments
    (saveReviewCommentCall recStorer o n num review)
    review.id "failed to query PR review comments" (rcEvs o n num review.databaseId)
    pages review.comments.pageInfo fuel
    { s with trace := s.trace
        ++ review.comments.nodes.flatMap (rcEvs o n num review.databaseId) }
    hch hfuel (fun a _ s' => rfl)
  unfold downloadReviewComments
  simp only [DlM.bind_apply, h1]
  rw [h2]

theorem processReview_recTrace (o n : String) (num : Int)
    (review : PullRequestReview) (F : Fetcher) (fuel : Nat)
    (rcPages : PullRequestReview → List (Conn PullRequestReviewComment))
    (hch : Chain (F.prReviewComments review.id) review.comments.pageInfo (rcPages review))
    (hfuel : (rcPages review).length ≤ fuel) (s : DlState Unit) :
    processReview recStorer F fuel o n num review s =
      (Except.ok (), { s with trace := (s.trace
        ++ reviewBlock o n num rcPages review) }) := by
  have h2 := downloadReviewComments_recTrace o n num review F fuel (rcPages review)
    hch hfuel
    { store := (), trace := s.trace ++ [Ev.savePullRequestReview o n num review.databaseId] }
  unfold processReview
  simp only [DlM.bind_apply, wrapNode_apply, callStore_apply]
  show downloadReviewComments recStorer F fuel o n num review
    { store := (), trace := s.trace ++ [Ev.savePullRequestReview o n num review.databaseId] } = _
  rw [h2]
  simp [reviewBlock, List.append_assoc]

theorem DlM.bind_ok (m : DlM σ α) (f : α → DlM σ β) (s s' : DlState σ) (a : α)
    (h : m s = (Except.ok a, s')) : (Bind.bind m f : DlM σ β) s = f a s' := by
  simp [DlM.bind_apply, h]

theorem downloadPullRequestReviews_recTrace (o n : String) (pr : PullRequest)
    (F : Fetcher) (fuel : Nat) (rPages : List (Conn PullRequestReview))
    (rcPages : PullRequestReview → List (Conn PullRequestReviewComment))
    (hch : Chain (F.prReviews pr.id) pr.reviews.pageInfo rPages)
    (hfuel : rPages.length ≤ fuel)
    (hrc : ∀ r ∈ pr.reviews.nodes ++ (rPages.map Conn.nodes).flatten,
      Chain (F.prReviewComments r.id) r.comments.pageInfo (rcPages r) ∧
        (rcPages r).length ≤ fuel)
    (s : DlState Unit) :
    downloadPullRequestReviews recStorer F fuel o n pr s =
      (Except.ok (), { s with trace := (s.trace
        ++ pr.reviews.nodes.flatMap (reviewBlock o n pr.number rcPages)
        ++ connTrace FetchKind.prReviews pr.id (reviewBlock o n pr.number rcPages)
            pr.reviews.pageInfo rPages) }) := by
  have hon : ∀ r ∈ pr.reviews.nodes, ∀ s',
      processReview recStorer F fuel o n pr.number r s' =
        (Except.ok (), { s' with trace := s'.trace ++ reviewBlock o n pr.number rcPages r }) := by
    intro r hr s'
    obtain ⟨h1, h2⟩ := hrc r (List.mem_append_left _ hr)
    exact processReview_recTrace o n pr.number r F fuel rcPages h1 h2 s'
  have honl : ∀ r ∈ (rPages.map Conn.nodes).flatten, ∀ s',
      processReview recStorer F fuel o n pr.number r s' =
        (Except.ok (), { s' with trace := s'.trace ++ reviewBlock o n pr.number rcPages r }) := by
    intro r hr s'
    obtain ⟨h1, h2⟩ := hrc r (List.mem_append_right _ hr)
    exact processReview_recTrace o n pr.number r F fuel rcPages h1 h2 s'
  have hfe := forEachM_evs (processReview recStorer F fuel o n pr.number)
    (reviewBlock o n pr.number rcPages) pr.reviews.nodes hon s
  have h2 := nodesLoop_chain FetchKind.prReviews F.prReviews
    (processReview recStorer F fuel o n pr.number) pr.id "failed to query PR reviews"
    (reviewBlock o n pr.number rcPages) rPages pr.reviews.pageInfo fuel
    { s with trace := s.trace ++ pr.reviews.nodes.flatMap (reviewBlock o n pr.number rcPages) }
    hch hfuel honl
  unfold downloadPullRequestReviews
  simp only [DlM.bind_apply, hfe]
  rw [h2]

theorem downloadPullRequestAssignees_recTrace (pr : PullRequest) (F : Fetcher)
    (fuel : Nat) (pages : List (Conn User))
    (hch : Chain (F.prAssignees pr.id) pr.assignees.pageInfo pages)
    (hfuel : pages.length ≤ fuel) (s : DlState σ) :
    downloadPullRequestAssignees F fuel pr s =
      (Except.ok (drained User.login pr.assignees pages),
        { s with trace := s.trace
          ++ fetchTrace FetchKind.prAssignees pr.id pr.assignees.pageInfo pages }) := by
  unfold downloadPullRequestAssignees
  exact stringsLoop_chain FetchKind.prAssignees F.prAssignees User.login pr.id
    "failed to query PR assignees" pages pr.assignees.pageInfo fuel
    (pr.assignees.nodes.map User.login) s hch hfuel

theorem downloadPullRequestLabels_recTrace (pr : PullRequest) (F : Fetcher)
    (fuel : Nat) (pages : List (Conn Label))
    (hch : Chain (F.prLabels pr.id) pr.labels.pageInfo pages)
    (hfuel : pages.length ≤ fuel) (s : DlState σ) :
    downloadPullRequestLabels F fuel pr s =
      (Except.ok (drained Label.name pr.labels pages),
        { s with trace := s.trace
          ++ fetchTrace FetchKind.prLabels pr.id pr.labels.pageInfo pages }) := by
  unfold downloadPullRequestLabels
  exact stringsLoop_chain FetchKind.prLabels F.prLabels Label.name pr.id
    "failed to query PR labels" pages pr.labels.pageInfo fuel
    (pr.labels.nodes.map Label.name) s hch hfuel

theorem downloadIssueAssignees_recTrace (issue : Issue) (F : Fetcher)
    (fuel : Nat) (pages : List (Conn User))
    (hch : Chain (F.issueAssignees issue.id) issue.assignees.pageInfo pages)
    (hfuel : pages.length ≤ fuel) (s : DlState σ) :
    downloadIssueAssignees F fuel issue s =
      (Except.ok (drained User.login issue.assignees pages),
        { s with trace := s.trace
          ++ fetchTrace FetchKind.issueAssignees issue.id issue.assignees.pageInfo pages }) := by
  unfold downloadIssueAssignees
  exact stringsLoop_chain FetchKind.issueAssignees F.issueAssignees User.login issue.id
    "failed to query issue assignees" pages issue.assignees.pageInfo fuel
    (issue.assignees.nodes.map User.login) s hch hfuel

theorem downloadIssueLabels_recTrace (issue : Issue) (F : Fetcher)
    (fuel : Nat) (pages : List (Conn Label))
    (hch : Chain (F.issueLabels issue.id) issue.labels.pageInfo pages)
    (hfuel : pages.length ≤ fuel) (s : DlState σ) :
    downloadIssueLabels F fuel issue s =
      (Except.ok (drained Label.name issue.labels pages),
        { s with trace := s.trace
          ++ fetchTrace FetchKind.issueLabels issue.id issue.labels.pageInfo pages }) := by
  unfold downloadIssueLabels
  exact stringsLoop_chain FetchKind.issueLabels F.issueLabels Label.name issue.id
    "failed to query issue labels" pages issue.labels.pageInfo fuel
    (issue.labels.nodes.map Label.name) s hch hfuel

theorem processIssue_recTrace (o n : String) (issue : Issue) (F : Fetcher) (fuel : Nat)
    (aPages : List (Conn User)) (lPages : List (Conn Label)) (cPages : List (Conn IssueComment))
    (hcha : Chain (F.issueAssignees issue.id) issue.assignees.pageInfo aPages)
    (hfa : aPages.length ≤ fuel)
    (hchl : Chain (F.issueLabels issue.id) issue.labels.pageInfo lPages)
    (hfl : lPages.length ≤ fuel)
    (hchc : Chain (F.issueComments issue.id) issue.comments.pageInfo cPages)
    (hfc : cPages.length ≤ fuel)
    (tr : List Ev) :
    processIssue recStorer F fuel o n issue { store := (), trace := tr } =
      (Except.ok (), { store := (), trace := (tr
        ++ fetchTrace FetchKind.issueAssignees issue.id issue.assignees.pageInfo aPages
        ++ fetchTrace FetchKind.issueLabels issue.id issue.labels.pageInfo lPages
        ++ [Ev.saveIssue o n issue.number (drained User.login issue.assignees aPages)
              (drained Label.name issue.labels lPages)]
        ++ issue.comments.nodes.flatMap (sicEvs o n issue.number)
        ++ connTrace FetchKind.issueComments issue.id (sicEvs o n issue.number)
            issue.comments.pageInfo cPages) }) := by
  have ha := downloadIssueAssignees_recTrace issue F fuel aPages hcha hfa
    (σ := Unit) { store := (), trace := tr }
  have hl := downloadIssueLabels_recTrace issue F fuel lPages hchl hfl
    (σ := Unit) { store := (), trace := tr
      ++ fetchTrace FetchKind.issueAssignees issue.id issue.assignees.pageInfo aPages }
  have hc := downloadIssueComments_recTrace o n issue F fuel cPages hchc hfc
    { store := (), trace := tr
      ++ fetchTrace FetchKind.issueAssignees issue.id issue.assignees.pageInfo aPages
      ++ fetchTrace FetchKind.issueLabels issue.id issue.labels.pageInfo lPages
      ++ [Ev.saveIssue o n issue.number (drained User.login issue.assignees aPages)
            (drained Label.name issue.labels lPages)] }
  unfold processIssue
  simp only [DlM.bind_apply, callStore_apply, ha, hl]
  simp only [recStorer_saveIssue_eq]
  simp only [List.append_assoc] at hc
  simp [hc, List.append_assoc]

theorem processPullRequest_recTrace (o n : String) (pr : PullRequest) (F : Fetcher)
    (fuel : Nat) (aPages : List (Conn User)) (lPages : List (Conn Label))
    (cPages : List (Conn IssueComment)) (rPages : List (Conn PullRequestReview))
    (rcPages : PullRequestReview → List (Conn PullRequestReviewComment))
    (hcha : Chain (F.prAssignees pr.id) pr.assignees.pageInfo aPages)
    (hfa : aPages.length ≤ fuel)
    (hchl : Chain (F.prLabels pr.id) pr.labels.pageInfo lPages)
    (hfl : lPages.length ≤ fuel)
    (hchc : Chain (F.prComments pr.id) pr.comments.pageInfo cPages)
    (hfc : cPages.length ≤ fuel)
    (hchr : Chain (F.prReviews pr.id) pr.reviews.pageInfo rPages)
    (hfr : rPages.length ≤ fuel)
    (hrc : ∀ r ∈ pr.reviews.nodes ++ (rPages.map Conn.nodes).flatten,
      Chain (F.prReviewComments r.id) r.comments.pageInfo (rcPages r) ∧
        (rcPages r).length ≤ fuel)
    (tr : List Ev) :
    processPullRequest recStorer F fuel o n pr { store := (), trace := tr } =
      (Except.ok (), { store := (), trace := (tr
        ++ fetchTrace FetchKind.prAssignees pr.id pr.assignees.pageInfo aPages
        ++ fetchTrace FetchKind.prLabels pr.id pr.labels.pageInfo lPages
        ++ [Ev.savePullRequest o n pr.number (drained User.login pr.assignees aPages)
              (drained Label.name pr.labels lPages)]
        ++ pr.comments.nodes.flatMap (prcEvs o n pr.number)
        ++ connTrace FetchKind.prComments pr.id (prcEvs o n pr.number)
            pr.comments.pageInfo cPages
        ++ pr.reviews.nodes.flatMap (reviewBlock o n pr.number rcPages)
        ++ connTrace FetchKind.prReviews pr.id (reviewBlock o n pr.number rcPages)
            pr.reviews.pageInfo rPages) }) := by
  have ha := downloadPullRequestAssignees_recTrace pr F fuel aPages hcha hfa
    (σ := Unit) { store := (), trace := tr }
  have hl := downloadPullRequestLabels_recTrace pr F fuel lPages hchl hfl
    (σ := Unit) { store := (), trace := tr
      ++ fetchTrace FetchKind.prAssignees pr.id pr.assignees.pageInfo aPages }
  have hc := downloadPullRequestComments_recTrace o n pr F fuel cPages hchc hfc
    { store := (), trace := tr
      ++ fetchTrace FetchKind.prAssignees pr.id pr.assignees.pageInfo aPages
      ++ fetchTrace FetchKind.prLabels pr.id pr.labels.pageInfo lPages
      ++ [Ev.savePullRequest o n pr.number (drained User.login pr.assignees aPages)
            (drained Label.name pr.labels lPages)] }
  have hr := downloadPullRequestReviews_recTrace o n pr F fuel rPages rcPages hchr hfr hrc
    { store := (), trace := tr
      ++ fetchTrace FetchKind.prAssignees pr.id pr.assignees.pageInfo aPages
      ++ fetchTrace FetchKind.prLabels pr.id pr.labels.pageInfo lPages
      ++ [Ev.savePullRequest o n pr.number (drained User.login pr.assignees aPages)
            (drained Label.name pr.labels lPages)]
      ++ pr.comments.nodes.flatMap (prcEvs o n pr.number)
      ++ connTrace FetchKind.prComments pr.id (prcEvs o n pr.number)
          pr.comments.pageInfo cPages }
  unfold processPullRequest
  simp only [DlM.bind_apply, callStore_apply, ha, hl]
  simp only [recStorer_savePullRequest_eq]
  simp only [List.append_assoc, List.singleton_append, List.cons_append,
    List.nil_append] at hc hr
  simp [hc, hr, List.append_assoc]

@[simp] theorem evSICId_fetch (k : FetchKind) (id c : String) :
    evSaveIssueCommentId (Ev.fetch k id c) = none := rfl

@[simp] theorem evSICId_save (o n : String) (num : Int) (cid : String) :
    evSaveIssueCommentId (Ev.saveIssueComment o n num cid) = some cid := rfl

theorem filterMap_flatMap_sicEvs (o n : String) (num : Int) (cs : List IssueComment) :
    (cs.flatMap (sicEvs o n num)).filterMap evSaveIssueCommentId =
      cs.map IssueComment.id := by
  induction cs with
  | nil => rfl
  | cons c rest ih => simp [sicEvs, List.flatMap_cons, ih]

theorem filterMap_connTrace_sicEvs (o n : String) (num : Int) (k : FetchKind)
    (id : String) :
    ∀ (pages : List (Conn IssueComment)) (info : PageInfo),
      (connTrace k id (sicEvs o n num) info pages).filterMap evSaveIssueCommentId =
        (pages.map Conn.nodes).flatten.map IssueComment.id := by
  intro pages
  induction pages with
  | nil => intro _; rfl
  | cons p rest ih =>
    intro info
    simp [connTrace, List.filterMap_append, filterMap_flatMap_sicEvs, ih]

/-- Claim C1: for a connection whose source delivers nodes across the given
pages, the pagination loop of `downloadIssueComments` invokes the per-node
Save exactly the sum of the page sizes many times, in exactly the order the
pages were returned: the full trace is the first-page saves followed, page by
page, by one fetch and that page's saves; the sequence of saved comment ids
equals the concatenation of all pages' nodes in page order; and its length is
the sum of all page sizes. -/
theorem claim_c1_pagination_exact (o n : String) (issue : Issue) (F : Fetcher)
    (fuel : Nat) (pages : List (Conn IssueComment))
    (hch : Chain (F.issueComments issue.id) issue.comments.pageInfo pages)
    (hfuel : pages.length ≤ fuel) :
    downloadIssueComments recStorer F fuel o n issue { store := (), trace := [] } =
      (Except.ok (), { store := (), trace :=
        (issue.comments.nodes.flatMap (sicEvs o n issue.number)
          ++ connTrace FetchKind.issueComments issue.id (sicEvs o n issue.number)
              issue.comments.pageInfo pages) }) ∧
    (issue.comments.nodes.flatMap (sicEvs o n issue.number)
        ++ connTrace FetchKind.issueComments issue.id (sicEvs o n issue.number)
            issue.comments.pageInfo pages).filterMap evSaveIssueCommentId =
      (issue.comments.nodes ++ (pages.map Conn.nodes).flatten).map IssueComment.id ∧
    ((issue.comments.nodes.flatMap (sicEvs o n issue.number)
        ++ connTrace FetchKind.issueComments issue.id (sicEvs o n issue.number)
            issue.comments.pageInfo pages).filterMap evSaveIssueCommentId).length =
      issue.comments.nodes.length + (pages.map fun p => p.nodes.length).sum := by
  have h1 := downloadIssueComments_recTrace o n issue F fuel pages hch hfuel
    { store := (), trace := [] }
  have h2 : (issue.comments.nodes.flatMap (sicEvs o n issue.number)
      ++ connTrace FetchKind.issueComments issue.id (sicEvs o n issue.number)
          issue.comments.pageInfo pages).filterMap evSaveIssueCommentId =
      (issue.comments.nodes ++ (pages.map Conn.nodes).flatten).map IssueComment.id := by
    simp [List.filterMap_append, filterMap_flatMap_sicEvs, filterMap_connTrace_sicEvs]
  refine ⟨by simpa using h1, h2, ?_⟩
  rw [h2]
  simp [List.length_flatten, Function.comp_def]

/-- Claim C1 witness: the spec scenario — page 1 `[c1, c2]` with
`hasNextPage = true`, page 2 `[c3]` fetched with cursor "A"; SaveIssueComment
is invoked exactly 3 times, in order c1, c2, c3. -/
theorem claim_c1_witness :
    Chain (c1F.issueComments c1Issue.id) c1Issue.comments.pageInfo [c1Page2] ∧
    downloadIssueComments recStorer c1F 1 "o" "r" c1Issue { store := (), trace := [] } =
      (Except.ok (), { store := (), trace :=
        [Ev.saveIssueComment "o" "r" 5 "c1", Ev.saveIssueComment "o" "r" 5 "c2",
         Ev.fetch FetchKind.issueComments "I1" "A", Ev.saveIssueComment "o" "r" 5 "c3"] }) ∧
    (c1Issue.comments.nodes.flatMap (sicEvs "o" "r" 5)
        ++ connTrace FetchKind.issueComments c1Issue.id (sicEvs "o" "r" 5)
            c1Issue.comments.pageInfo [c1Page2]).filterMap evSaveIssueCommentId =
      ["c1", "c2", "c3"] := by
  have hch : Chain (c1F.issueComments c1Issue.id) c1Issue.comments.pageInfo [c1Page2] :=
    ⟨rfl, by decide, rfl⟩
  have h := claim_c1_pagination_exact "o" "r" c1Issue c1F 1 [c1Page2] hch
    (by decide)
  refine ⟨hch, h.1.trans (by decide), ?_⟩
  have := h.2.1
  simp only [c1Issue] at this ⊢
  exact this.trans (by decide)

/-- Claim C5: per-entity resolution order.  For an issue, the trace of the
per-issue `process` step is: only fetch events (the assignees walk, then the
labels walk, both drained to completion), then the single SaveIssue carrying
the two whole drained lists, then the comment saves one at a time.  For a
pull request, the per-pull-request `process` step likewise fully drains
assignees and labels before the single SavePullRequest carrying both whole
lists, then saves comments one at a time, then reviews: each review
contributes its own save followed immediately by the complete walk of its
comments (its `reviewBlock`) before the next review's block begins. -/
theorem claim_c5_per_entity_order (o n : String) (issue : Issue) (pr : PullRequest)
    (F : Fetcher) (fuel : Nat)
    (iaPages : List (Conn User)) (ilPages : List (Conn Label))
    (icPages : List (Conn IssueComment))
    (aPages : List (Conn User)) (lPages : List (Conn Label))
    (cPages : List (Conn IssueComment)) (rPages : List (Conn PullRequestReview))
    (rcPages : PullRequestReview → List (Conn PullRequestReviewComment))
    (hia : Chain (F.issueAssignees issue.id) issue.assignees.pageInfo iaPages)
    (hfia : iaPages.length ≤ fuel)
    (hil : Chain (F.issueLabels issue.id) issue.labels.pageInfo ilPages)
    (hfil : ilPages.length ≤ fuel)
    (hic : Chain (F.issueComments issue.id) issue.comments.pageInfo icPages)
    (hfic : icPages.length ≤ fuel)
    (hcha : Chain (F.prAssignees pr.id) pr.assignees.pageInfo aPages)
    (hfa : aPages.length ≤ fuel)
    (hchl : Chain (F.prLabels pr.id) pr.labels.pageInfo lPages)
    (hfl : lPages.length ≤ fuel)
    (hchc : Chain (F.prComments pr.id) pr.comments.pageInfo cPages)
    (hfc : cPages.length ≤ fuel)
    (hchr : Chain (F.prReviews pr.id) pr.reviews.pageInfo rPages)
    (hfr : rPages.length ≤ fuel)
    (hrc : ∀ r ∈ pr.reviews.nodes ++ (rPages.map Conn.nodes).flatten,
      Chain (F.prReviewComments r.id) r.comments.pageInfo (rcPages r) ∧
        (rcPages r).length ≤ fuel)
    (tr : List Ev) :
    processIssue recStorer F fuel o n issue { store := (), trace := tr } =
      (Except.ok (), { store := (), trace := (tr
        ++ fetchTrace FetchKind.issueAssignees issue.id issue.assignees.pageInfo iaPages
        ++ fetchTrace FetchKind.issueLabels issue.id issue.labels.pageInfo ilPages
        ++ [Ev.saveIssue o n issue.number (drained User.login issue.assignees iaPages)
              (drained Label.name issue.labels ilPages)]
        ++ issue.comments.nodes.flatMap (sicEvs o n issue.number)
        ++ connTrace FetchKind.issueComments issue.id (sicEvs o n issue.number)
            issue.comments.pageInfo icPages) }) ∧
    processPullRequest recStorer F fuel o n pr { store := (), trace := tr } =
      (Except.ok (), { store := (), trace := (tr
        ++ fetchTrace FetchKind.prAssignees pr.id pr.assignees.pageInfo aPages
        ++ fetchTrace FetchKind.prLabels pr.id pr.labels.pageInfo lPages
        ++ [Ev.savePullRequest o n pr.number (drained User.login pr.assignees aPages)
              (drained Label.name pr.labels lPages)]
        ++ pr.comments.nodes.flatMap (prcEvs o n pr.number)
        ++ connTrace FetchKind.prComments pr.id (prcEvs o n pr.number)
            pr.comments.pageInfo cPages
        ++ pr.reviews.nodes.flatMap (reviewBlock o n pr.number rcPages)
        ++ connTrace FetchKind.prReviews pr.id (reviewBlock o n pr.number rcPages)
            pr.reviews.pageInfo rPages) }) :=
  ⟨processIssue_recTrace o n issue F fuel iaPages ilPages icPages hia hfia hil hfil
      hic hfic tr,
    processPullRequest_recTrace o n pr F fuel aPages lPages cPages rPages rcPages
      hcha hfa hchl hfl hchc hfc hchr hfr hrc tr⟩

/-- Claim C5 witness: concrete per-entity traces — for the issue, SaveIssue
with the whole assignee and label lists first, then its comment; for the pull
request, SavePullRequest with both whole lists, then its comment, then the
review followed immediately by that review's comment. -/
theorem claim_c5_witness :
    processIssue recStorer failF 0 "o" "r" w5Issue { store := (), trace := [] } =
      (Except.ok (), { store := (), trace :=
        [Ev.saveIssue "o" "r" 3 ["ia"] [], Ev.saveIssueComment "o" "r" 3 "ic1"] }) ∧
    processPullRequest recStorer failF 0 "o" "r" w5PR { store := (), trace := [] } =
      (Except.ok (), { store := (), trace :=
        [Ev.savePullRequest "o" "r" 2 ["al"] ["lb"],
         Ev.savePullRequestComment "o" "r" 2 "pc1",
         Ev.savePullRequestReview "o" "r" 2 10,
         Ev.savePullRequestReviewComment "o" "r" 2 10 "rc1"] }) := by
  have hrc : ∀ r ∈ w5PR.reviews.nodes ++ (([] : List (Conn PullRequestReview)).map
      Conn.nodes).flatten,
      Chain (failF.prReviewComments r.id) r.comments.pageInfo
        ((fun _ => []) r : List (Conn PullRequestReviewComment)) ∧
        (((fun _ => []) r : List (Conn PullRequestReviewComment)).length ≤ 0) := by
    intro r hr
    simp [w5PR] at hr
    subst hr
    exact ⟨rfl, Nat.le_refl 0⟩
  have h := claim_c5_per_entity_order "o" "r" w5Issue w5PR failF 0
    [] [] [] [] [] [] [] (fun _ => [])
    rfl (Nat.le_refl 0) rfl (Nat.le_refl 0) rfl (Nat.le_refl 0)
    rfl (Nat.le_refl 0) rfl (Nat.le_refl 0) rfl (Nat.le_refl 0) rfl (Nat.le_refl 0)
    hrc []
  exact ⟨h.1.trans (by decide), h.2.trans (by decide)⟩

theorem monoC_any (p : Ev → Bool) : MonoC (fun seen => seen.any p = true) := by
  intro seen more h
  simp [List.any_append, h]

theorem monoC_true : MonoC (fun _ => True) := by
  intro _ _ _
  trivial

theorem orderOKfrom_append (seen Δ₁ Δ₂ : List Ev) :
    orderOKfrom seen (Δ₁ ++ Δ₂) =
      (orderOKfrom seen Δ₁ && orderOKfrom (Δ₁.reverse ++ seen) Δ₂) := by
  induction Δ₁ generalizing seen with
  | nil => simp [orderOKfrom]
  | cons e rest ih =>
    simp [orderOKfrom, ih, Bool.and_assoc, List.append_assoc]

theorem orderOKfrom_mono (Δ : List Ev) :
    ∀ (seen seen' : List Ev), (∀ e ∈ seen, e ∈ seen') →
      orderOKfrom seen Δ = true → orderOKfrom seen' Δ = true := by
  induction Δ with
  | nil => intro _ _ _ _; rfl
  | cons e rest ih =>
    intro seen seen' hsub h
    rw [orderOKfrom] at h ⊢
    rw [Bool.and_eq_true] at h ⊢
    obtain ⟨h1, h2⟩ := h
    refine ⟨?_, ih (e :: seen) (e :: seen') ?_ h2⟩
    · cases hp : parentFor e with
      | none => rfl
      | some p =>
        rw [hp] at h1
        rw [List.any_eq_true] at h1 ⊢
        obtain ⟨x, hx, hpx⟩ := h1
        exact ⟨x, hsub x hx, hpx⟩
    · intro x hx
      rcases List.mem_cons.mp hx with h | h
      · exact List.mem_cons.mpr (Or.inl h)
      · exact List.mem_cons.mpr (Or.inr (hsub x h))

theorem Appends.weaken {C : List Ev → Prop} {P Q : Ev → Bool} {m : DlM σ α}
    (h : Appends C P m) (hpq : ∀ e, P e = true → Q e = true) : Appends C Q m := by
  intro s
  obtain ⟨Δ, h1, h2, h3⟩ := h s
  refine ⟨Δ, h1, ?_, h3⟩
  rw [List.all_eq_true] at h2 ⊢
  exact fun e he => hpq e (h2 e he)

theorem Appends.strengthenC {C C' : List Ev → Prop} {Q : Ev → Bool} {m : DlM σ α}
    (h : Appends C Q m) (hcc : ∀ seen, C' seen → C seen) : Appends C' Q m := by
  intro s
  obtain ⟨Δ, h1, h2, h3⟩ := h s
  exact ⟨Δ, h1, h2, fun seen hc => h3 seen (hcc seen hc)⟩

theorem appends_pure {C : List Ev → Prop} {Q : Ev → Bool} (a : α) :
    Appends C Q (pure a : DlM σ α) := by
  intro s
  exact ⟨[], by simp, rfl, fun _ _ => rfl⟩

theorem appends_throwE {C : List Ev → Prop} {Q : Ev → Bool} (e : Err) :
    Appends C Q (throwE e : DlM σ α) := by
  intro s
  exact ⟨[], by simp, rfl, fun _ _ => rfl⟩

theorem appends_bind {C : List Ev → Prop} {Q : Ev → Bool} (hC : MonoC C)
    {m : DlM σ α} {f : α → DlM σ β}
    (hm : Appends C Q m) (hf : ∀ a, Appends C Q (f a)) :
    Appends C Q (Bind.bind m f : DlM σ β) := by
  intro s
  obtain ⟨Δ₁, h1, hq1, ho1⟩ := hm s
  cases hms : m s with
  | mk r s' =>
    rw [hms] at h1
    cases r with
    | ok a =>
      obtain ⟨Δ₂, h2, hq2, ho2⟩ := hf a s'
      refine ⟨Δ₁ ++ Δ₂, ?_, ?_, ?_⟩
      · show ((Bind.bind m f : DlM σ β) s).2.trace = _
        simp only [DlM.bind_apply, hms]
        rw [h2, h1, List.append_assoc]
      · rw [List.all_append, hq1, hq2]
        rfl
      · intro seen hc
        rw [orderOKfrom_append, ho1 seen hc,
          ho2 (Δ₁.reverse ++ seen) (hC seen Δ₁.reverse hc)]
        rfl
    | error e =>
      refine ⟨Δ₁, ?_, hq1, ho1⟩
      show ((Bind.bind m f : DlM σ β) s).2.trace = _
      simp only [DlM.bind_apply, hms]
      exact h1

theorem appends_doFetch {C : List Ev → Prop} {Q : Ev → Bool}
    (k : FetchKind) (id cursor : String) (r : Except Err α)
    (hq : Q (Ev.fetch k id cursor) = true) :
    Appends C Q (doFetch k id cursor r : DlM σ α) := by
  intro s
  refine ⟨[Ev.fetch k id cursor], rfl, by simp [hq], ?_⟩
  intro seen _
  simp [orderOKfrom, parentFor]

theorem appends_callStore {C : List Ev → Prop} {Q : Ev → Bool}
    (e : Ev) (f : σ → Except Err σ) (hq : Q e = true)
    (hp : ∀ seen, C seen → orderOKfrom seen [e] = true) :
    Appends C Q (callStore e f) := by
  intro s
  cases hf : f s.store with
  | ok st => exact ⟨[e], by simp [callStore, hf], by simp [hq], hp⟩
  | error err => exact ⟨[e], by simp [callStore, hf], by simp [hq], hp⟩

theorem appends_wrapNode {C : List Ev → Prop} {Q : Ev → Bool}
    (msg : String) {m : DlM σ Unit} (h : Appends C Q m) :
    Appends C Q (wrapNode msg m) := by
  intro s
  obtain ⟨Δ, h1, h2, h3⟩ := h s
  refine ⟨Δ, ?_, h2, h3⟩
  cases hms : m s with
  | mk r s' =>
    rw [hms] at h1
    cases r with
    | ok a => simpa [wrapNode, hms] using h1
    | error e => simpa [wrapNode, hms] using h1

theorem appends_forEachM {C : List Ev → Prop} {Q : Ev → Bool} (hC : MonoC C)
    (onNode : α → DlM σ Unit) (hon : ∀ a, Appends C Q (onNode a)) :
    ∀ l : List α, Appends C Q (forEachM onNode l) := by
  intro l
  induction l with
  | nil => exact appends_pure ()
  | cons a rest ih =>
    exact appends_bind hC (hon a) (fun _ => ih)

theorem appends_nodesLoop {C : List Ev → Prop} {Q : Ev → Bool} (hC : MonoC C)
    (k : FetchKind) (fetch₂ : String → String → Except Err (Conn α))
    (onNode : α → DlM σ Unit) (id msg : String)
    (hon : ∀ a, Appends C Q (onNode a))
    (hq : ∀ cursor, Q (Ev.fetch k id cursor) = true) :
    ∀ (fuel : Nat) (hasNext : Bool) (cursor : String),
      Appends C Q (nodesLoop k fetch₂ onNode id msg fuel hasNext cursor) := by
  intro fuel
  induction fuel with
  | zero =>
    intro hasNext cursor
    cases hasNext
    · exact appends_pure ()
    · exact appends_throwE Err.fuelOut
  | succ fuel ih =>
    intro hasNext cursor
    cases hasNext
    · exact appends_pure ()
    · refine appends_bind hC (appends_doFetch k id cursor _ (hq cursor)) ?_
      intro page
      exact appends_bind hC (appends_forEachM hC onNode hon page.nodes)
        (fun _ => ih page.pageInfo.hasNextPage page.pageInfo.endCursor)

theorem appends_stringsLoop {σ : Type} {C : List Ev → Prop} {Q : Ev → Bool} (hC : MonoC C)
    (k : FetchKind) (fetch₂ : String → String → Except Err (Conn α))
    (item : α → String) (id msg : String)
    (hq : ∀ cursor, Q (Ev.fetch k id cursor) = true) :
    ∀ (fuel : Nat) (hasNext : Bool) (cursor : String) (acc : List String),
      Appends C Q (stringsLoop k fetch₂ item id msg fuel hasNext cursor acc : DlM σ (List String)) := by
  intro fuel
  induction fuel with
  | zero =>
    intro hasNext cursor acc
    cases hasNext
    · exact appends_pure acc
    · exact appends_throwE Err.fuelOut
  | succ fuel ih =>
    intro hasNext cursor acc
    cases hasNext
    · exact appends_pure acc
    · refine appends_bind hC (appends_doFetch k id cursor _ (hq cursor)) ?_
      intro page
      exact ih page.pageInfo.hasNextPage page.pageInfo.endCursor
        (acc ++ page.nodes.map item)

theorem appends_parent_seq {C : List Ev → Prop} {Q : Ev → Bool}
    {m₀ : DlM σ Unit} {m' : DlM σ Unit} (e : Ev) (p' : Ev → Bool)
    (h₀ : ∀ s, ((m₀ s).2).trace = s.trace ++ [e])
    (hq : Q e = true)
    (hp : ∀ seen, C seen → orderOKfrom seen [e] = true)
    (he : p' e = true)
    (hm' : Appends (fun seen => seen.any p' = true) Q m') :
    Appends C Q (Bind.bind m₀ (fun _ => m') : DlM σ Unit) := by
  intro s
  cases hm₀ : m₀ s with
  | mk r s' =>
    have hs' : s'.trace = s.trace ++ [e] := by
      have := h₀ s
      rw [hm₀] at this
      exact this
    cases r with
    | error err =>
      refine ⟨[e], ?_, by simp [hq], hp⟩
      show ((Bind.bind m₀ (fun _ => m') : DlM σ Unit) s).2.trace = _
      simp only [DlM.bind_apply, hm₀]
      exact hs'
    | ok a =>
      obtain ⟨Δc, hc1, hc2, hc3⟩ := hm' s'
      refine ⟨e :: Δc, ?_, ?_, ?_⟩
      · show ((Bind.bind m₀ (fun _ => m') : DlM σ Unit) s).2.trace = _
        simp only [DlM.bind_apply, hm₀]
        rw [hc1, hs']
        simp
      · simp [hq, hc2]
      · intro seen hc
        have h1 := hp seen hc
        have h2 := hc3 (e :: seen) (by simp [he])
        rw [orderOKfrom, Bool.and_eq_true]
        refine ⟨?_, h2⟩
        rw [orderOKfrom, orderOKfrom] at h1
        simpa using h1

theorem appends_downloadTopics {C : List Ev → Prop} (hC : MonoC C)
    (F : Fetcher) (fuel : Nat) (repository : Repository) :
    Appends C Qbody (downloadTopics F fuel repository : DlM σ (List String)) := by
  unfold downloadTopics
  exact appends_stringsLoop hC _ _ _ _ _ (fun _ => rfl) _ _ _ _

theorem appends_downloadIssueAssignees {C : List Ev → Prop} (hC : MonoC C)
    (F : Fetcher) (fuel : Nat) (issue : Issue) :
    Appends C Qbody (downloadIssueAssignees F fuel issue : DlM σ (List String)) := by
  unfold downloadIssueAssignees
  exact appends_stringsLoop hC _ _ _ _ _ (fun _ => rfl) _ _ _ _

theorem appends_downloadIssueLabels {C : List Ev → Prop} (hC : MonoC C)
    (F : Fetcher) (fuel : Nat) (issue : Issue) :
    Appends C Qbody (downloadIssueLabels F fuel issue : DlM σ (List String)) := by
  unfold downloadIssueLabels
  exact appends_stringsLoop hC _ _ _ _ _ (fun _ => rfl) _ _ _ _

theorem appends_downloadPullRequestAssignees {C : List Ev → Prop} (hC : MonoC C)
    (F : Fetcher) (fuel : Nat) (pr : PullRequest) :
    Appends C Qbody (downloadPullRequestAssignees F fuel pr : DlM σ (List String)) := by
  unfold downloadPullRequestAssignees
  exact appends_stringsLoop hC _ _ _ _ _ (fun _ => rfl) _ _ _ _

theorem appends_downloadPullRequestLabels {C : List Ev → Prop} (hC : MonoC C)
    (F : Fetcher) (fuel : Nat) (pr : PullRequest) :
    Appends C Qbody (downloadPullRequestLabels F fuel pr : DlM σ (List String)) := by
  unfold downloadPullRequestLabels
  exact appends_stringsLoop hC _ _ _ _ _ (fun _ => rfl) _ _ _ _

theorem appends_downloadIssueComments {C : List Ev → Prop} (hC : MonoC C)
    (S : Storer σ) (F : Fetcher) (fuel : Nat) (owner name : String) (issue : Issue) :
    Appends C Qbody (downloadIssueComments S F fuel owner name issue) := by
  have hone : ∀ c : IssueComment,
      Appends C Qbody (saveIssueCommentCall S owner name issue.number c) := by
    intro c
    exact appends_callStore _ _ rfl (fun seen _ => rfl)
  unfold downloadIssueComments
  refine appends_bind hC (appends_forEachM hC _ hone _) ?_
  intro _
  exact appends_nodesLoop hC _ _ _ _ _
    (fun c => appends_wrapNode _ (hone c)) (fun _ => rfl) _ _ _

theorem appends_processIssue {C : List Ev → Prop} (hC : MonoC C)
    (S : Storer σ) (F : Fetcher) (fuel : Nat) (owner name : String) (issue : Issue)
    (hrepo : ∀ seen, C seen → seen.any isSaveRepositoryEv = true) :
    Appends C Qbody (processIssue S F fuel owner name issue) := by
  unfold processIssue
  refine appends_bind hC (appends_downloadIssueAssignees hC F fuel issue) ?_
  intro assignees
  refine appends_bind hC (appends_downloadIssueLabels hC F fuel issue) ?_
  intro labels
  refine appends_bind hC (appends_callStore _ _ rfl ?_) ?_
  · intro seen hc
    simp [orderOKfrom, parentFor, hrepo seen hc]
  · intro _
    exact appends_downloadIssueComments hC S F fuel owner name issue

theorem appends_downloadIssues {C : List Ev → Prop} (hC : MonoC C)
    (S : Storer σ) (F : Fetcher) (fuel : Nat) (owner name : String)
    (repository : Repository)
    (hrepo : ∀ seen, C seen → seen.any isSaveRepositoryEv = true) :
    Appends C Qbody (downloadIssues S F fuel owner name repository) := by
  have hone : ∀ issue : Issue, Appends C Qbody
      (wrapNode "failed to process issue" (processIssue S F fuel owner name issue)) :=
    fun issue => appends_wrapNode _ (appends_processIssue hC S F fuel owner name issue hrepo)
  unfold downloadIssues
  refine appends_bind hC (appends_forEachM hC _ hone _) ?_
  intro _
  exact appends_nodesLoop hC _ _ _ _ _ hone (fun _ => rfl) _ _ _

theorem appends_downloadPullRequestComments {C : List Ev → Prop} (hC : MonoC C)
    (S : Storer σ) (F : Fetcher) (fuel : Nat) (owner name : String) (pr : PullRequest)
    (hpr : ∀ seen, C seen →
      seen.any (isSavePullRequestEv owner name pr.number) = true) :
    Appends C Qbody (downloadPullRequestComments S F fuel owner name pr) := by
  have hone : ∀ c : IssueComment,
      Appends C Qbody (savePullRequestCommentCall S owner name pr.number c) := by
    intro c
    refine appends_wrapNode _ (appends_callStore _ _ rfl ?_)
    intro seen hc
    simp [orderOKfrom, parentFor, hpr seen hc]
  unfold downloadPullRequestComments
  refine appends_bind hC (appends_forEachM hC _ hone _) ?_
  intro _
  exact appends_nodesLoop hC _ _ _ _ _ hone (fun _ => rfl) _ _ _

theorem appends_downloadReviewComments {C : List Ev → Prop} (hC : MonoC C)
    (S : Storer σ) (F : Fetcher) (fuel : Nat) (owner name : String)
    (prNumber : Int) (review : PullRequestReview)
    (hrv : ∀ seen, C seen →
      seen.any (isSavePullRequestReviewEv owner name prNumber review.databaseId) = true) :
    Appends C Qrev (downloadReviewComments S F fuel owner name prNumber review) := by
  have hone : ∀ c : PullRequestReviewComment,
      Appends C Qrev (saveReviewCommentCall S owner name prNumber review c) := by
    intro c
    refine appends_wrapNode _ (appends_callStore _ _ rfl ?_)
    intro seen hc
    simp [orderOKfrom, parentFor, hrv seen hc]
  unfold downloadReviewComments
  refine appends_bind hC (appends_forEachM hC _ hone _) ?_
  intro _
  exact appends_nodesLoop hC FetchKind.prReviewComments _ _ _ _ hone (fun _ => rfl) _ _ _

theorem appends_processReview {C : List Ev → Prop} (_hC : MonoC C)
    (S : Storer σ) (F : Fetcher) (fuel : Nat) (owner name : String)
    (prNumber : Int) (review : PullRequestReview)
    (hpr : ∀ seen, C seen →
      seen.any (isSavePullRequestEv owner name prNumber) = true) :
    Appends C Qrev (processReview S F fuel owner name prNumber review) := by
  unfold processReview
  refine appends_parent_seq
    (Ev.savePullRequestReview owner name prNumber review.databaseId)
    (isSavePullRequestReviewEv owner name prNumber review.databaseId)
    ?_ rfl ?_ (by simp [isSavePullRequestReviewEv]) ?_
  · intro s
    cases hf : S.savePullRequestReview owner name prNumber review s.store with
    | ok st => simp [wrapNode, callStore, hf]
    | error err => simp [wrapNode, callStore, hf]
  · intro seen hc
    simp [orderOKfrom, parentFor, hpr seen hc]
  · exact appends_downloadReviewComments (monoC_any _) S F fuel owner name prNumber
      review (fun _ h => h)

theorem appends_downloadPullRequestReviews {C : List Ev → Prop} (hC : MonoC C)
    (S : Storer σ) (F : Fetcher) (fuel : Nat) (owner name : String) (pr : PullRequest)
    (hpr : ∀ seen, C seen →
      seen.any (isSavePullRequestEv owner name pr.number) = true) :
    Appends C Qbody (downloadPullRequestReviews S F fuel owner name pr) := by
  have hone : ∀ r : PullRequestReview,
      Appends C Qbody (processReview S F fuel owner name pr.number r) := by
    intro r
    exact (appends_processReview hC S F fuel owner name pr.number r hpr).weaken
      (fun e h => by
        rw [Qrev, Bool.and_eq_true] at h
        exact h.1)
  unfold downloadPullRequestReviews
  refine appends_bind hC (appends_forEachM hC _ hone _) ?_
  intro _
  exact appends_nodesLoop hC _ _ _ _ _ hone (fun _ => rfl) _ _ _

theorem appends_processPullRequest {C : List Ev → Prop} (hC : MonoC C)
    (S : Storer σ) (F : Fetcher) (fuel : Nat) (owner name : String) (pr : PullRequest)
    (hrepo : ∀ seen, C seen → seen.any isSaveRepositoryEv = true) :
    Appends C Qbody (processPullRequest S F fuel owner name pr) := by
  unfold processPullRequest
  refine appends_bind hC (appends_downloadPullRequestAssignees hC F fuel pr) ?_
  intro assignees
  refine appends_bind hC (appends_downloadPullRequestLabels hC F fuel pr) ?_
  intro labels
  refine appends_parent_seq
    (Ev.savePullRequest owner name pr.number assignees labels)
    (isSavePullRequestEv owner name pr.number)
    ?_ rfl ?_ (by simp [isSavePullRequestEv]) ?_
  · intro s
    cases hf : S.savePullRequest owner name pr assignees labels s.store with
    | ok st => simp [callStore, hf]
    | error err => simp [callStore, hf]
  · intro seen hc
    simp [orderOKfrom, parentFor, hrepo seen hc]
  · refine appends_bind (monoC_any _)
      (appends_downloadPullRequestComments (monoC_any _) S F fuel owner name pr
        (fun _ h => h)) ?_
    intro _
    exact appends_downloadPullRequestReviews (monoC_any _) S F fuel owner name pr
      (fun _ h => h)

theorem appends_downloadPullRequests {C : List Ev → Prop} (hC : MonoC C)
    (S : Storer σ) (F : Fetcher) (fuel : Nat) (owner name : String)
    (repository : Repository)
    (hrepo : ∀ seen, C seen → seen.any isSaveRepositoryEv = true) :
    Appends C Qbody (downloadPullRequests S F fuel owner name repository) := by
  have hone : ∀ pr : PullRequest, Appends C Qbody
      (wrapNode "failed to process PR" (processPullRequest S F fuel owner name pr)) :=
    fun pr => appends_wrapNode _
      (appends_processPullRequest hC S F fuel owner name pr hrepo)
  unfold downloadPullRequests
  refine appends_bind hC (appends_forEachM hC _ hone _) ?_
  intro _
  exact appends_nodesLoop hC _ _ _ _ _ hone (fun _ => rfl) _ _ _

theorem appends_repositoryBody {C : List Ev → Prop} (hC : MonoC C)
    (S : Storer σ) (F : Fetcher) (fuel : Nat) (owner name : String) :
    Appends C Qbody (repositoryBody S F fuel owner name) := by
  unfold repositoryBody
  refine appends_bind hC (appends_doFetch _ _ _ _ rfl) ?_
  intro repo
  refine appends_bind hC (appends_downloadTopics hC F fuel repo) ?_
  intro topics
  refine appends_parent_seq
    (Ev.saveRepository repo.repositoryFields.owner.login repo.repositoryFields.name topics)
    isSaveRepositoryEv
    ?_ rfl (fun _ _ => rfl) rfl ?_
  · intro s
    cases hf : wrapE "failed to save repository"
        (S.saveRepository repo.repositoryFields topics s.store) with
    | ok st => simp [callStore, hf]
    | error err => simp [callStore, hf]
  · refine appends_bind (monoC_any _)
      (appends_downloadIssues (monoC_any _) S F fuel owner name repo (fun _ h => h)) ?_
    intro _
    exact appends_downloadPullRequests (monoC_any _) S F fuel owner name repo
      (fun _ h => h)

theorem appends_downloadUsers {C : List Ev → Prop} (hC : MonoC C)
    (S : Storer σ) (F : Fetcher) (fuel : Nat) (name : String)
    (organization : Organization)
    (horg : ∀ seen, C seen → seen.any isSaveOrganizationEv = true) :
    Appends C Qbody (downloadUsers S F fuel name organization) := by
  have hone : ∀ u : UserExtended, Appends C Qbody
      (wrapNode "failed to process user" (saveUserCall S u)) := by
    intro u
    refine appends_wrapNode _ (appends_wrapNode _ (appends_callStore _ _ rfl ?_))
    intro seen hc
    simp [orderOKfrom, parentFor, horg seen hc]
  unfold downloadUsers
  refine appends_bind hC (appends_forEachM hC _ hone _) ?_
  intro _
  exact appends_nodesLoop hC _ _ _ _ _ hone (fun _ => rfl) _ _ _

theorem appends_organizationBody {C : List Ev → Prop} (hC : MonoC C)
    (S : Storer σ) (F : Fetcher) (fuel : Nat) (name : String) :
    Appends C Qbody (organizationBody S F fuel name) := by
  unfold organizationBody
  refine appends_bind hC (appends_doFetch _ _ _ _ rfl) ?_
  intro org
  refine appends_parent_seq (Ev.saveOrganization org.login) isSaveOrganizationEv
    ?_ rfl (fun _ _ => rfl) rfl ?_
  · intro s
    cases hf : wrapE "failed to save organization" (S.saveOrganization org s.store) with
    | ok st => simp [callStore, hf]
    | error err => simp [callStore, hf]
  · exact appends_downloadUsers (monoC_any _) S F fuel name org (fun _ h => h)

theorem orderOKfrom_none (seen : List Ev) (e : Ev) (h : parentFor e = none) :
    orderOKfrom seen [e] = true := by
  simp [orderOKfrom, h]

theorem downloadRepository_run {σ : Type} (S : Storer σ) (F : Fetcher) (fuel : Nat)
    (owner name : String) (version : Int) (st : σ) :
    (∃ e, S.beginTx (S.version version st) = Except.error e ∧
      downloadRepository S F fuel owner name version { store := st, trace := [] } =
        (Except.error (Err.wrap "could not call Begin()" e),
         { store := S.version version st,
           trace := [Ev.version version, Ev.beginTx] })) ∨
    (∃ st' r s2, S.beginTx (S.version version st) = Except.ok st' ∧
      repositoryBody S F fuel owner name
        { store := st', trace := [Ev.version version, Ev.beginTx] } = (r, s2) ∧
      ((∃ u, r = Except.ok u ∧
         downloadRepository S F fuel owner name version { store := st, trace := [] } =
           (Except.ok (), commitState S s2)) ∨
       (∃ e, r = Except.error e ∧
         downloadRepository S F fuel owner name version { store := st, trace := [] } =
           (Except.error e, rollbackState S s2)))) := by
  unfold downloadRepository withTx
  cases hb : S.beginTx (S.version version st) with
  | error e =>
    left
    exact ⟨e, rfl, by simp [hb]⟩
  | ok st' =>
    right
    cases hbody : repositoryBody S F fuel owner name
        { store := st', trace := [Ev.version version, Ev.beginTx] } with
    | mk r s2 =>
      refine ⟨st', r, s2, rfl, hbody, ?_⟩
      cases r with
      | ok u => exact Or.inl ⟨u, rfl, by simp [hb, hbody]⟩
      | error e => exact Or.inr ⟨e, rfl, by simp [hb, hbody]⟩

theorem downloadOrganization_run {σ : Type} (S : Storer σ) (F : Fetcher) (fuel : Nat)
    (name : String) (version : Int) (st : σ) :
    (∃ e, S.beginTx (S.version version st) = Except.error e ∧
      downloadOrganization S F fuel name version { store := st, trace := [] } =
        (Except.error (Err.wrap "could not call Begin()" e),
         { store := S.version version st,
           trace := [Ev.version version, Ev.beginTx] })) ∨
    (∃ st' r s2, S.beginTx (S.version version st) = Except.ok st' ∧
      organizationBody S F fuel name
        { store := st', trace := [Ev.version version, Ev.beginTx] } = (r, s2) ∧
      ((∃ u, r = Except.ok u ∧
         downloadOrganization S F fuel name version { store := st, trace := [] } =
           (Except.ok (), commitState S s2)) ∨
       (∃ e, r = Except.error e ∧
         downloadOrganization S F fuel name version { store := st, trace := [] } =
           (Except.error e, rollbackState S s2)))) := by
  unfold downloadOrganization withTx
  cases hb : S.beginTx (S.version version st) with
  | error e =>
    left
    exact ⟨e, rfl, by simp [hb]⟩
  | ok st' =>
    right
    cases hbody : organizationBody S F fuel name
        { store := st', trace := [Ev.version version, Ev.beginTx] } with
    | mk r s2 =>
      refine ⟨st', r, s2, rfl, hbody, ?_⟩
      cases r with
      | ok u => exact Or.inl ⟨u, rfl, by simp [hb, hbody]⟩
      | error e => exact Or.inr ⟨e, rfl, by simp [hb, hbody]⟩

theorem orderOK_body_tx (Δ : List Ev) (v : Int) (last : Ev)
    (h3 : ∀ seen, orderOKfrom seen Δ = true) (hlast : parentFor last = none) :
    orderOK (([Ev.version v, Ev.beginTx] ++ Δ) ++ [last]) = true := by
  rw [orderOK, orderOKfrom_append, orderOKfrom_append]
  simp only [Bool.and_eq_true]
  exact ⟨⟨by simp [orderOKfrom, parentFor], h3 _⟩, orderOKfrom_none _ _ hlast⟩

/-- Claim C2: the ordering invariant.  In the sequence of calls any one
top-level traversal issues — for any backend, any fetcher, any fuel, and
whether the run succeeds or aborts — every `SaveIssue` and `SavePullRequest`
is preceded by the `SaveRepository` call, every `SavePullRequestComment` and
`SavePullRequestReview` by the `SavePullRequest` of the same repository and
pull-request number, every `SavePullRequestReviewComment` by the
`SavePullRequestReview` of the same repository, number and review id, and
every `SaveUser` by the `SaveOrganization` call (the `orderOK` check over the
trace, whose required parents are given by `parentFor`). -/
theorem claim_c2_ordering_invariant {σ : Type} (S : Storer σ) (F : Fetcher)
    (fuel : Nat) (owner name orgName : String) (version : Int) (st : σ) :
    orderOK ((downloadRepository S F fuel owner name version
      { store := st, trace := [] }).2.trace) = true ∧
    orderOK ((downloadOrganization S F fuel orgName version
      { store := st, trace := [] }).2.trace) = true := by
  constructor
  · rcases downloadRepository_run S F fuel owner name version st with
      ⟨e, _, hrun⟩ | ⟨st', r, s2, _, hbody, hrest⟩
    · rw [hrun]
      simp [orderOK, orderOKfrom, parentFor]
    · obtain ⟨Δ, h1, _, h3⟩ := appends_repositoryBody (C := fun _ => True)
        monoC_true S F fuel owner name
        { store := st', trace := [Ev.version version, Ev.beginTx] }
      rw [hbody] at h1
      rcases hrest with ⟨u, _, hrun⟩ | ⟨e, _, hrun⟩
      · rw [hrun]
        show orderOK (commitState S s2).trace = true
        rw [commitState]
        show orderOK (s2.trace ++ [Ev.commit]) = true
        rw [h1]
        exact orderOK_body_tx Δ version Ev.commit (fun seen => h3 seen trivial) rfl
      · rw [hrun]
        show orderOK (rollbackState S s2).trace = true
        rw [rollbackState]
        show orderOK (s2.trace ++ [Ev.rollback]) = true
        rw [h1]
        exact orderOK_body_tx Δ version Ev.rollback (fun seen => h3 seen trivial) rfl
  · rcases downloadOrganization_run S F fuel orgName version st with
      ⟨e, _, hrun⟩ | ⟨st', r, s2, _, hbody, hrest⟩
    · rw [hrun]
      simp [orderOK, orderOKfrom, parentFor]
    · obtain ⟨Δ, h1, _, h3⟩ := appends_organizationBody (C := fun _ => True)
        monoC_true S F fuel orgName
        { store := st', trace := [Ev.version version, Ev.beginTx] }
      rw [hbody] at h1
      rcases hrest with ⟨u, _, hrun⟩ | ⟨e, _, hrun⟩
      · rw [hrun]
        show orderOK (commitState S s2).trace = true
        rw [commitState]
        show orderOK (s2.trace ++ [Ev.commit]) = true
        rw [h1]
        exact orderOK_body_tx Δ version Ev.commit (fun seen => h3 seen trivial) rfl
      · rw [hrun]
        show orderOK (rollbackState S s2).trace = true
        rw [rollbackState]
        show orderOK (s2.trace ++ [Ev.rollback]) = true
        rw [h1]
        exact orderOK_body_tx Δ version Ev.rollback (fun seen => h3 seen trivial) rfl

theorem rollback_not_in_body (Δ : List Ev) (h : Δ.all Qbody = true) :
    Ev.rollback ∉ Δ := by
  intro hmem
  rw [List.all_eq_true] at h
  have := h Ev.rollback hmem
  simp [Qbody, Ev.isTx] at this

theorem commit_not_in_body (Δ : List Ev) (h : Δ.all Qbody = true) :
    Ev.commit ∉ Δ := by
  intro hmem
  rw [List.all_eq_true] at h
  have := h Ev.commit hmem
  simp [Qbody, Ev.isTx] at this

/-- Claim C6: failure policy of a top-level traversal.  For every run of
`DownloadRepository` or `DownloadOrganization`: if it returns success, the
trace ends with the `Commit` call and no `Rollback` was ever invoked; if it
returns an error, either the trace ends with the `Rollback` call and no
`Commit` was ever invoked (any query or Save error at any depth propagates —
no per-entity catch-and-skip exists in the engine — and triggers the
rollback), or `Begin` itself failed, in which case the trace stops right
after the `Begin` call with neither commit nor rollback. -/
theorem claim_c6_failure_policy {σ : Type} (S : Storer σ) (F : Fetcher)
    (fuel : Nat) (owner name orgName : String) (version : Int) (st : σ) :
    (∀ u, (downloadRepository S F fuel owner name version
        { store := st, trace := [] }).1 = Except.ok u →
      ((downloadRepository S F fuel owner name version
          { store := st, trace := [] }).2.trace.getLast? = some Ev.commit ∧
        Ev.rollback ∉ (downloadRepository S F fuel owner name version
          { store := st, trace := [] }).2.trace)) ∧
    (∀ e, (downloadRepository S F fuel owner name version
        { store := st, trace := [] }).1 = Except.error e →
      (((downloadRepository S F fuel owner name version
           { store := st, trace := [] }).2.trace.getLast? = some Ev.rollback ∧
         Ev.commit ∉ (downloadRepository S F fuel owner name version
           { store := st, trace := [] }).2.trace) ∨
       (downloadRepository S F fuel owner name version
         { store := st, trace := [] }).2.trace = [Ev.version version, Ev.beginTx])) ∧
    (∀ u, (downloadOrganization S F fuel orgName version
        { store := st, trace := [] }).1 = Except.ok u →
      ((downloadOrganization S F fuel orgName version
          { store := st, trace := [] }).2.trace.getLast? = some Ev.commit ∧
        Ev.rollback ∉ (downloadOrganization S F fuel orgName version
          { store := st, trace := [] }).2.trace)) ∧
    (∀ e, (downloadOrganization S F fuel orgName version
        { store := st, trace := [] }).1 = Except.error e →
      (((downloadOrganization S F fuel orgName version
           { store := st, trace := [] }).2.trace.getLast? = some Ev.rollback ∧
         Ev.commit ∉ (downloadOrganization S F fuel orgName version
           { store := st, trace := [] }).2.trace) ∨
       (downloadOrganization S F fuel orgName version
         { store := st, trace := [] }).2.trace = [Ev.version version, Ev.beginTx])) := by
  have hrepo := downloadRepository_run S F fuel owner name version st
  have horg := downloadOrganization_run S F fuel orgName version st
  refine ⟨?_, ?_, ?_, ?_⟩
  · intro u hu
    rcases hrepo with ⟨e, _, hrun⟩ | ⟨st', r, s2, _, hbody, hrest⟩
    · rw [hrun] at hu
      exact absurd hu (by simp)
    · obtain ⟨Δ, h1, h2, _⟩ := appends_repositoryBody (C := fun _ => True)
        monoC_true S F fuel owner name
        { store := st', trace := [Ev.version version, Ev.beginTx] }
      rw [hbody] at h1
      rcases hrest with ⟨u', _, hrun⟩ | ⟨e, hr, hrun⟩
      · rw [hrun]
        constructor
        · show ((commitState S s2).trace).getLast? = some Ev.commit
          rw [commitState]
          exact List.getLast?_concat _
        · show Ev.rollback ∉ (commitState S s2).trace
          rw [commitState]
          show Ev.rollback ∉ s2.trace ++ [Ev.commit]
          rw [h1]
          intro hmem
          rcases List.mem_append.mp hmem with hmem | hmem
          · rcases List.mem_append.mp hmem with hmem | hmem
            · simp at hmem
            · exact rollback_not_in_body Δ h2 hmem
          · simp at hmem
      · rw [hrun] at hu
        exact absurd hu (by simp)
  · intro e he
    rcases hrepo with ⟨e', _, hrun⟩ | ⟨st', r, s2, _, hbody, hrest⟩
    · rw [hrun]
      exact Or.inr rfl
    · obtain ⟨Δ, h1, h2, _⟩ := appends_repositoryBody (C := fun _ => True)
        monoC_true S F fuel owner name
        { store := st', trace := [Ev.version version, Ev.beginTx] }
      rw [hbody] at h1
      rcases hrest with ⟨u', _, hrun⟩ | ⟨e', hr, hrun⟩
      · rw [hrun] at he
        exact absurd he (by simp)
      · rw [hrun]
        left
        constructor
        · show ((rollbackState S s2).trace).getLast? = some Ev.rollback
          rw [rollbackState]
          exact List.getLast?_concat _
        · show Ev.commit ∉ (rollbackState S s2).trace
          rw [rollbackState]
          show Ev.commit ∉ s2.trace ++ [Ev.rollback]
          rw [h1]
          intro hmem
          rcases List.mem_append.mp hmem with hmem | hmem
          · rcases List.mem_append.mp hmem with hmem | hmem
            · simp at hmem
            · exact commit_not_in_body Δ h2 hmem
          · simp at hmem
  · intro u hu
    rcases horg with ⟨e, _, hrun⟩ | ⟨st', r, s2, _, hbody, hrest⟩
    · rw [hrun] at hu
      exact absurd hu (by simp)
    · obtain ⟨Δ, h1, h2, _⟩ := appends_organizationBody (C := fun _ => True)
        monoC_true S F fuel orgName
        { store := st', trace := [Ev.version version, Ev.beginTx] }
      rw [hbody] at h1
      rcases hrest with ⟨u', _, hrun⟩ | ⟨e, hr, hrun⟩
      · rw [hrun]
        constructor
        · show ((commitState S s2).trace).getLast? = some Ev.commit
          rw [commitState]
          exact List.getLast?_concat _
        · show Ev.rollback ∉ (commitState S s2).trace
          rw [commitState]
          show Ev.rollback ∉ s2.trace ++ [Ev.commit]
          rw [h1]
          intro hmem
          rcases List.mem_append.mp hmem with hmem | hmem
          · rcases List.mem_append.mp hmem with hmem | hmem
            · simp at hmem
            · exact rollback_not_in_body Δ h2 hmem
          · simp at hmem
      · rw [hrun] at hu
        exact absurd hu (by simp)
  · intro e he
    rcases horg with ⟨e', _, hrun⟩ | ⟨st', r, s2, _, hbody, hrest⟩
    · rw [hrun]
      exact Or.inr rfl
    · obtain ⟨Δ, h1, h2, _⟩ := appends_organizationBody (C := fun _ => True)
        monoC_true S F fuel orgName
        { store := st', trace := [Ev.version version, Ev.beginTx] }
      rw [hbody] at h1
      rcases hrest with ⟨u', _, hrun⟩ | ⟨e', hr, hrun⟩
      · rw [hrun] at he
        exact absurd he (by simp)
      · rw [hrun]
        left
        constructor
        · show ((rollbackState S s2).trace).getLast? = some Ev.rollback
          rw [rollbackState]
          exact List.getLast?_concat _
        · show Ev.commit ∉ (rollbackState S s2).trace
          rw [rollbackState]
          show Ev.commit ∉ s2.trace ++ [Ev.rollback]
          rw [h1]
          intro hmem
          rcases List.mem_append.mp hmem with hmem | hmem
          · rcases List.mem_append.mp hmem with hmem | hmem
            · simp at hmem
            · exact commit_not_in_body Δ h2 hmem
          · simp at hmem

/-- Claim C6 witness: a concrete fully successful run commits (trace ends
with Commit), and the concrete failing run of the C3 scenario rolls back
(trace ends with Rollback, no Commit anywhere). -/
theorem claim_c6_witness :
    (downloadRepository memStorer c3F 1 "foo" "bar" 1
      { store := { repos := [] }, trace := [] }).1 = Except.ok () ∧
    (downloadRepository memStorer c3F 1 "foo" "bar" 1
      { store := { repos := [] }, trace := [] }).2.trace.getLast? = some Ev.commit ∧
    (downloadRepository memStorer c3F 1 "Foo" "bar" 1
      { store := { repos := [] }, trace := [] }).1 =
      Except.error (Err.wrap "failed to process PR" Err.notFound) ∧
    (((downloadRepository memStorer c3F 1 "Foo" "bar" 1
        { store := { repos := [] }, trace := [] }).2.trace.getLast? = some Ev.rollback ∧
      Ev.commit ∉ (downloadRepository memStorer c3F 1 "Foo" "bar" 1
        { store := { repos := [] }, trace := [] }).2.trace) ∨
     (downloadRepository memStorer c3F 1 "Foo" "bar" 1
       { store := { repos := [] }, trace := [] }).2.trace =
       [Ev.version 1, Ev.beginTx]) := by
  refine ⟨by decide, ?_, by decide, ?_⟩
  · exact ((claim_c6_failure_policy memStorer c3F 1 "foo" "bar" "x" 1
      { repos := [] }).1 () (by decide)).1
  · exact (claim_c6_failure_policy memStorer c3F 1 "Foo" "bar" "x" 1
      { repos := [] }).2.1 (Err.wrap "failed to process PR" Err.notFound) (by decide)

/-- Claim C4: a connection whose first (pre-known, embedded) page reports
`hasNextPage = false` performs zero additional fetch calls for that
connection: the reviews walk of a pull request whose embedded reviews page is
final appends no reviews-connection fetch event at all (for any backend and
fetcher); and when that first page is moreover empty, the whole reviews walk
is a no-op — zero review-related Save or fetch calls, state unchanged. -/
theorem claim_c4_first_page_final {σ : Type} (S : Storer σ) (F : Fetcher)
    (fuel : Nat) (owner name : String) (pr : PullRequest) (s : DlState σ)
    (hfalse : pr.reviews.pageInfo.hasNextPage = false) :
    (∃ Δ, (downloadPullRequestReviews S F fuel owner name pr s).2.trace =
        s.trace ++ Δ ∧ Δ.all (fun e => !isPrReviewsFetch e) = true) ∧
    (pr.reviews.nodes = [] →
      downloadPullRequestReviews S F fuel owner name pr s = (Except.ok (), s)) := by
  constructor
  · have hA : Appends
        (fun seen => seen.any (isSavePullRequestEv owner name pr.number) = true)
        Qrev (downloadPullRequestReviews S F fuel owner name pr) := by
      unfold downloadPullRequestReviews
      rw [hfalse, nodesLoop_false]
      refine appends_bind (monoC_any _) (appends_forEachM (monoC_any _) _ ?_ _) ?_
      · intro r
        exact appends_processReview (monoC_any _) S F fuel owner name pr.number r
          (fun _ h => h)
      · intro _
        exact appends_pure ()
    obtain ⟨Δ, h1, h2, _⟩ := hA s
    refine ⟨Δ, h1, ?_⟩
    rw [List.all_eq_true] at h2 ⊢
    intro e he
    have := h2 e he
    rw [Qrev, Bool.and_eq_true] at this
    exact this.2
  · intro hempty
    unfold downloadPullRequestReviews
    rw [hfalse, nodesLoop_false, hempty]
    show (Bind.bind (forEachM _ []) _ : DlM σ Unit) s = _
    simp [forEachM]

/-- Claim C4 witness: the concrete pull request with zero reviews and a
final first reviews page — the reviews walk does nothing at all. -/
theorem claim_c4_witness :
    c3PR.reviews.pageInfo.hasNextPage = false ∧ c3PR.reviews.nodes = [] ∧
    downloadPullRequestReviews recStorer failF 0 "o" "r" c3PR
      { store := (), trace := [] } = (Except.ok (), { store := (), trace := [] }) := by
  refine ⟨rfl, rfl, ?_⟩
  exact (claim_c4_first_page_final recStorer failF 0 "o" "r" c3PR
    { store := (), trace := [] } rfl).2 rfl

namespace Bridge

theorem createComments_spec (prId : Int) :
    ∀ (cs : List IssueComment) (c0 : Nat),
      (createComments prId cs c0).1 = c0 + cs.length ∧
      (createComments prId cs c0).2.1 = specTopComments prId cs c0 := by
  intro cs
  induction cs with
  | nil => intro c0; exact ⟨rfl, rfl⟩
  | cons c rest ih =>
    intro c0
    obtain ⟨h1, h2⟩ := ih (c0 + 1)
    constructor
    · simp [createComments, h1]
      omega
    · simp [createComments, specTopComments, h2]

theorem createNested_spec (prId : Int) (parent : Nat) :
    ∀ (cs : List PullRequestReviewComment) (c0 : Nat),
      (createNested prId parent cs c0).1 = c0 + cs.length ∧
      (createNested prId parent cs c0).2 = specNested prId parent cs c0 := by
  intro cs
  induction cs with
  | nil => intro c0; exact ⟨rfl, rfl⟩
  | cons c rest ih =>
    intro c0
    obtain ⟨h1, h2⟩ := ih (c0 + 1)
    constructor
    · simp [createNested, h1]
      omega
    · simp [createNested, specNested, h2]

theorem createReviewComments_spec (prId : Int) :
    ∀ (rvs : GoMap Int Store.PullRequestReview) (c0 : Nat),
      (createReviewComments prId rvs c0).1 =
        c0 + (rvs.map fun kv => reviewBlockLen kv.2).sum ∧
      (createReviewComments prId rvs c0).2 = specReviewEvs prId rvs c0 := by
  intro rvs
  induction rvs with
  | nil => intro c0; exact ⟨rfl, rfl⟩
  | cons kv rest ih =>
    intro c0
    obtain ⟨k, rv⟩ := kv
    obtain ⟨hn1, hn2⟩ := createNested_spec prId c0 rv.comments (c0 + 1)
    obtain ⟨h1, h2⟩ := ih (c0 + 1 + rv.comments.length)
    constructor
    · simp [createReviewComments, hn1, h1, reviewBlockLen]
      omega
    · simp [createReviewComments, hn1, hn2, h2, specReviewEvs, specReviewBlock,
        reviewBlockLen]
      rw [show c0 + (1 + rv.comments.length) = c0 + 1 + rv.comments.length by omega]

theorem migratePR_spec (prId : Int) (p : Store.PullRequest) (c0 : Nat) :
    (migratePR prId p c0).1 = c0 + specPRBlockLen p ∧
    (migratePR prId p c0).2 = specPRBlock prId p c0 := by
  obtain ⟨hc1, hc2⟩ := createComments_spec prId p.comments (c0 + 1)
  obtain ⟨hr1, hr2⟩ := createReviewComments_spec prId p.reviews
    (c0 + 1 + p.comments.length)
  constructor
  · simp [migratePR, hc1, hr1, specPRBlockLen]
    omega
  · simp [migratePR, hc1, hc2, hr2, specPRBlock]

theorem migrateList_spec :
    ∀ (prs : GoMap Int Store.PullRequest) (c0 : Nat),
      (migrateList prs c0).2 = specMigrate prs c0 := by
  intro prs
  induction prs with
  | nil => intro c0; rfl
  | cons kv rest ih =>
    intro c0
    obtain ⟨k, p⟩ := kv
    by_cases hstate : p.pr.state = "OPEN"
    · obtain ⟨hm1, hm2⟩ := migratePR_spec k p c0
      simp [migrateList, specMigrate, hstate, hm1, hm2, ih]
    · simp [migrateList, specMigrate, hstate, ih]

end Bridge

/-- Claim C9: the downstream bridge skips every pull request whose state is
not "OPEN" (such an entry contributes no write at all), and for each migrated
pull request issues its writes in the order: create the pull request, then
all of its top-level comments, then each review — a header comment for the
review followed immediately by that review's nested comments attached as
children of the created review comment (their parent field is exactly the id
the server answered for the header).  Formally, the write trace of `migrate`
equals `specMigrate`, the trace written from the claim text. -/
theorem claim_c9_bridge_migration (repo : Store.Repo) (c0 : Nat) :
    (Bridge.migrate repo c0).2 = Bridge.specMigrate repo.prs c0 :=
  Bridge.migrateList_spec repo.prs c0

end MetadataRetrieval
